import Mathlib

set_option linter.unusedVariables false
set_option linter.unusedSectionVars false

/-!
Shallow embedding of `src/containers/multi_group_array.h`
(`MultiGroupArray<ClassType, MaxGroupNum>`): a contiguous buffer of
elements partitioned into `MaxGroupNum` groups by `MaxGroupNum - 1`
split positions.  C++ `int` values are modelled by `ℤ`; the element
buffer `std::vector<ClassType>` by `List α`; `m_splits`
(`std::array<int, MaxGroupNum - 1>`) by `List ℤ`.  Buffer indexing in
the C++ is only defined for nonnegative indices, and the theorems below
carry the validity hypotheses under which every index that the code
forms is nonnegative, so the `Int.toNat` coercions at indexing sites
are lossless there.
-/

/-- The container state: `m_itemArray` and `m_splits`. -/
structure MultiGroupArray (α : Type) : Type where
  itemArray : List α
  splits : List ℤ
  deriving DecidableEq, Repr

namespace MultiGroupArray

variable {α : Type} [Inhabited α]

/-- `groupPosL`: `(groupIndex == 0) ? 0 : m_splits.at(groupIndex - 1)`. -/
def groupPosL (G : ℕ) (s : MultiGroupArray α) (groupIndex : ℕ) : ℤ :=
  if groupIndex = 0 then 0 else s.splits.getD (groupIndex - 1) 0

/-- `groupPosR`: `(groupIndex == MaxGroupNum - 1) ? m_itemArray.size() : m_splits.at(groupIndex)`. -/
def groupPosR (G : ℕ) (s : MultiGroupArray α) (groupIndex : ℕ) : ℤ :=
  if groupIndex = G - 1 then (s.itemArray.length : ℤ) else s.splits.getD groupIndex 0

/-- The scan loop of `getItemGroup`, with fuel `G - startGroupIndex`
(the exact number of remaining loop iterations): while
`startGroupIndex < MaxGroupNum`, break when
`itemIndex < groupPosR(startGroupIndex)`, else increment; after the
loop, `startGroupIndex == MaxGroupNum` becomes `INDEX_INVALID = -1`. -/
def getItemGroupGo (G : ℕ) (s : MultiGroupArray α) (itemIndex : ℤ) : ℕ → ℕ → ℤ
  | 0, start => if start = G then -1 else (start : ℤ)
  | fuel + 1, start =>
    if itemIndex < groupPosR G s start then (start : ℤ)
    else getItemGroupGo G s itemIndex fuel (start + 1)

/-- `getItemGroup(itemIndex, startGroupIndex)`. -/
def getItemGroup (G : ℕ) (s : MultiGroupArray α) (itemIndex : ℤ) (startGroupIndex : ℕ) : ℤ :=
  getItemGroupGo G s itemIndex (G - startGroupIndex) startGroupIndex

/-- The loop of `offsetSplits`: `for (i = start; i < stop - 1; ++i) m_splits.at(i) += offset`,
written as an index-tracking map over the splits list. -/
def offsetSplitsGo (offset : ℤ) (start stop : ℕ) : ℕ → List ℤ → List ℤ
  | _, [] => []
  | i, x :: xs =>
    (if start ≤ i ∧ i < stop - 1 then x + offset else x) :: offsetSplitsGo offset start stop (i + 1) xs

/-- `offsetSplits(offset, groupIndexStart, groupIndexEnd)`: guarded by
`groupIndexStart < MaxGroupNum - 1`, adds `offset` to
`m_splits[groupIndexStart .. groupIndexEnd - 2]`. -/
def offsetSplits (G : ℕ) (splits : List ℤ) (offset : ℤ) (start stop : ℕ) : List ℤ :=
  if start < G - 1 then offsetSplitsGo offset start stop 0 splits else splits

/-- `for (i = 0; i < data.length; ++i) arr[pos + i] = data[i]` — the
write loops of `modifyData`. -/
def writeSeq : List α → ℕ → List α → List α
  | l, _, [] => l
  | l, pos, x :: xs => writeSeq (l.set pos x) (pos + 1) xs

/-- The descending copy loop
`for (i = stop + n - 1; i >= stop; --i) arr[i] = arr[i - d]`
(first iteration at the highest index, as in `modifyData`'s grow
branch and `moveItemToGroup`'s leftward branch). -/
def shiftTailRight : List α → ℕ → ℕ → ℕ → List α
  | l, _, _, 0 => l
  | l, stop, d, n + 1 => shiftTailRight (l.set (stop + n) (l.getD (stop + n - d) default)) stop d n

/-- The ascending copy loop
`for (k = i; k < i + n; ++k) arr[k - d] = arr[k]`
(as in `modifyData`'s shrink branch and `moveItemToGroup`'s rightward
branch). -/
def shiftTailLeft : List α → ℕ → ℕ → ℕ → List α
  | l, _, _, 0 => l
  | l, d, i, n + 1 => shiftTailLeft (l.set (i - d) (l.getD i default)) d (i + 1) n

/-- `modifyData(newGroupIndex, newData, newArrayLength, replace)`:
compute the group's bounds, the length delta, grow/shrink the buffer
shifting the tail, write the new content (from the left bound when
replacing, from the old right bound when appending — the append write
loop is bounded by `arrayLengthDiff`, as in the source), and offset
the splits from `newGroupIndex` on. -/
def modifyData (G : ℕ) (s : MultiGroupArray α) (newGroupIndex : ℕ) (newData : List α)
    (replace : Bool) : MultiGroupArray α :=
  let separatorPosL : ℤ := groupPosL G s newGroupIndex
  let separatorPosR : ℤ := groupPosR G s newGroupIndex
  let oldArrayLength : ℤ := separatorPosR - separatorPosL
  let newArrayLength : ℤ := newData.length
  let arrayLengthDiff : ℤ := if replace then newArrayLength - oldArrayLength else newArrayLength
  let arr := s.itemArray
  let arr1 : List α :=
    if 0 < arrayLengthDiff then
      let grown := arr ++ List.replicate arrayLengthDiff.toNat default
      shiftTailRight grown (separatorPosR + arrayLengthDiff).toNat arrayLengthDiff.toNat
        (grown.length - (separatorPosR + arrayLengthDiff).toNat)
    else if arrayLengthDiff < 0 then
      let shifted := shiftTailLeft arr (-arrayLengthDiff).toNat separatorPosR.toNat
        (arr.length - separatorPosR.toNat)
      shifted.take (arr.length - (-arrayLengthDiff).toNat)
    else arr
  let arr2 : List α :=
    if replace then writeSeq arr1 separatorPosL.toNat newData
    else writeSeq arr1 separatorPosR.toNat (newData.take arrayLengthDiff.toNat)
  ⟨arr2, offsetSplits G s.splits arrayLengthDiff newGroupIndex G⟩

/-- `setItemArray(groupIndex, arr, arrLength)`. -/
def setItemArray (G : ℕ) (s : MultiGroupArray α) (groupIndex : ℕ) (arr : List α) :
    MultiGroupArray α :=
  modifyData G s groupIndex arr true

/-- `addItemArray(groupIndex, arr, arrLength)`. -/
def addItemArray (G : ℕ) (s : MultiGroupArray α) (groupIndex : ℕ) (arr : List α) :
    MultiGroupArray α :=
  modifyData G s groupIndex arr false

/-- `addItem(groupIndex, item)`. -/
def addItem (G : ℕ) (s : MultiGroupArray α) (groupIndex : ℕ) (item : α) : MultiGroupArray α :=
  modifyData G s groupIndex [item] false

/-- `removeGroup(groupIndex) { setItemArray(groupIndex, nullptr, 0); }`. -/
def removeGroup (G : ℕ) (s : MultiGroupArray α) (groupIndex : ℕ) : MultiGroupArray α :=
  setItemArray G s groupIndex []

/-- `removeItem(itemIndex)`: `offsetSplits(-1, getItemGroup(itemIndex, 0))`
then `m_itemArray.erase(m_itemArray.begin() + itemIndex)`.  There is no
bounds check.  When `getItemGroup` yields `-1` (an `itemIndex` at or
beyond the buffer's size), the first loop iteration of `offsetSplits`
evaluates `m_splits.at(-1)`, which throws before any mutation: modelled
as `none`.  When `itemIndex` is negative, the split adjustment is
well-defined C++ and executes in full, after which `erase` one before
`begin()` is undefined behaviour: the model records the completed split
adjustment and leaves the buffer unchanged at that undefined erase. -/
def removeItem (G : ℕ) (s : MultiGroupArray α) (itemIndex : ℤ) : Option (MultiGroupArray α) :=
  let g := getItemGroup G s itemIndex 0
  if g < 0 then none
  else
    some ⟨(if 0 ≤ itemIndex then s.itemArray.eraseIdx itemIndex.toNat else s.itemArray),
      offsetSplits G s.splits (-1) g.toNat G⟩

/-- `moveItemToGroup(itemIndex, groupIndex)`: returns the new state and
the position the returned pointer `&m_itemArray[...]` designates
(`none` for `nullptr`). -/
def moveItemToGroup (G : ℕ) (s : MultiGroupArray α) (itemIndex : ℤ) (groupIndex : ℕ) :
    MultiGroupArray α × Option ℤ :=
  if itemIndex < 0 ∨ (s.itemArray.length : ℤ) ≤ itemIndex then (s, none)
  else
    let groupIndexOld := getItemGroup G s itemIndex 0
    if groupIndexOld = -1 then (s, none)
    else if (groupIndex : ℤ) = groupIndexOld then (s, some itemIndex)
    else if groupIndexOld < (groupIndex : ℤ) then
      let splits1 := offsetSplits G s.splits (-1) groupIndexOld.toNat (groupIndex + 1)
      let s1 : MultiGroupArray α := ⟨s.itemArray, splits1⟩
      let newGroupL := groupPosL G s1 groupIndex
      let tmp := s.itemArray.getD itemIndex.toNat default
      let shifted := shiftTailLeft s.itemArray 1 (itemIndex.toNat + 1)
        (newGroupL.toNat - itemIndex.toNat)
      (⟨shifted.set newGroupL.toNat tmp, splits1⟩, some newGroupL)
    else
      let splits1 := offsetSplits G s.splits 1 groupIndex (groupIndexOld.toNat + 1)
      let s1 : MultiGroupArray α := ⟨s.itemArray, splits1⟩
      let newGroupR := groupPosR G s1 groupIndex - 1
      let tmp := s.itemArray.getD itemIndex.toNat default
      let shifted := shiftTailRight s.itemArray (newGroupR.toNat + 1) 1
        (itemIndex.toNat - newGroupR.toNat)
      (⟨shifted.set newGroupR.toNat tmp, splits1⟩, some newGroupR)

/-- `getGroupStartPtr(groupIndex)`: `nullptr` when the group's region
size is `0`, else a pointer to `m_itemArray.data() + posL`, modelled as
the designated buffer position. -/
def getGroupStartPtr (G : ℕ) (s : MultiGroupArray α) (groupIndex : ℕ) : Option ℤ :=
  let posL := groupPosL G s groupIndex
  let size := groupPosR G s groupIndex - posL
  if size = 0 then none else some posL

/-- `getItemIndexByPredicate(predicate)`: first buffer index whose
element satisfies the predicate, else `INDEX_INVALID = -1`. -/
def getItemIndexByPredicate (s : MultiGroupArray α) (predicate : α → Bool) : ℤ :=
  match s.itemArray.findIdx? predicate with
  | some i => (i : ℤ)
  | none => -1

/-- The state after the constructor / `clear()`: empty buffer, all
splits zero. -/
def emptyState (α : Type) (G : ℕ) : MultiGroupArray α :=
  ⟨[], List.replicate (G - 1) 0⟩

/-- The region of a group as a list: `m_itemArray[posL .. posR)`. -/
def groupRegion (G : ℕ) (s : MultiGroupArray α) (groupIndex : ℕ) : List α :=
  (s.itemArray.drop (groupPosL G s groupIndex).toNat).take
    ((groupPosR G s groupIndex).toNat - (groupPosL G s groupIndex).toNat)

/-- Boundary `k` of the partition, for `k ∈ [0, G]`: boundary `0` is
the buffer start, boundary `G` the buffer end, and boundary `k`
(0 < k < G) is `m_splits[k - 1]`.  `groupPosL g = boundary g` and
`groupPosR g = boundary (g+1)` for `g < G`. -/
def boundary (G : ℕ) (s : MultiGroupArray α) (k : ℕ) : ℤ :=
  if k = 0 then 0 else if G ≤ k then (s.itemArray.length : ℤ) else s.splits.getD (k - 1) 0

/-- The container's partition invariant: the splits array has its fixed
size and the `G + 1` region boundaries are non-decreasing (hence every
split lies in `[0, buffer.length]` and the `G` regions tile the buffer
exactly). -/
def Invariant (G : ℕ) (s : MultiGroupArray α) : Prop :=
  s.splits.length = G - 1 ∧ ∀ k, k < G → boundary G s k ≤ boundary G s (k + 1)

instance invariantDecidable (G : ℕ) (s : MultiGroupArray α) : Decidable (Invariant G s) :=
  inferInstanceAs (Decidable (s.splits.length = G - 1 ∧
    ∀ k, k < G → boundary G s k ≤ boundary G s (k + 1)))

/-- One mutating operation of the public interface. -/
inductive Op (α : Type) : Type where
  | setItemArray (groupIndex : ℕ) (data : List α)
  | addItemArray (groupIndex : ℕ) (data : List α)
  | addItem (groupIndex : ℕ) (item : α)
  | removeGroup (groupIndex : ℕ)
  | removeItem (itemIndex : ℤ)
  | moveItemToGroup (itemIndex : ℤ) (groupIndex : ℕ)

/-- Validity of one operation in a given state: group indices must be
in `[0, G)` (the asserted precondition) and `removeItem` must get an
in-bounds item index. -/
def validOp (G : ℕ) (s : MultiGroupArray α) : Op α → Bool
  | .setItemArray g _ => g < G
  | .addItemArray g _ => g < G
  | .addItem g _ => g < G
  | .removeGroup g => g < G
  | .removeItem i => decide (0 ≤ i) && decide (i < (s.itemArray.length : ℤ))
  | .moveItemToGroup _ g => g < G

/-- Apply one operation to a state. -/
def applyOp (G : ℕ) (s : MultiGroupArray α) : Op α → MultiGroupArray α
  | .setItemArray g d => setItemArray G s g d
  | .addItemArray g d => addItemArray G s g d
  | .addItem g x => addItem G s g x
  | .removeGroup g => removeGroup G s g
  | .removeItem i => (removeItem G s i).getD s
  | .moveItemToGroup i g => (moveItemToGroup G s i g).1

/-- All operations of the sequence are valid at the state where each
executes. -/
def validSeq (G : ℕ) : MultiGroupArray α → List (Op α) → Bool
  | _, [] => true
  | s, op :: ops => validOp G s op && validSeq G (applyOp G s op) ops

/-- Run a sequence of operations. -/
def execOps (G : ℕ) (s : MultiGroupArray α) (ops : List (Op α)) : MultiGroupArray α :=
  ops.foldl (applyOp G) s

/-- `arrayLengthDiff` as computed by `modifyData`:
`replace ? newArrayLength - oldArrayLength : newArrayLength`. -/
def lengthDiff (G : ℕ) (s : MultiGroupArray α) (g : ℕ) (data : List α) (replace : Bool) : ℤ :=
  if replace then (data.length : ℤ) - (groupPosR G s g - groupPosL G s g) else (data.length : ℤ)

/-- The three-group `char` container of the header's FIND / REMOVE
walkthrough and of Scenario C: groups `"ABCD"` / `"EFGH"` / `"IJKL"`,
built by three `addItemArray` calls from the empty container. -/
def scenC : MultiGroupArray Char :=
  addItemArray 3
    (addItemArray 3
      (addItemArray 3 (emptyState Char 3) 0 ['A', 'B', 'C', 'D'])
      1 ['E', 'F', 'G', 'H'])
    2 ['I', 'J', 'K', 'L']

/-- `scenC` after `removeItem(7)` (the index of `'H'`). -/
def scenC1 : MultiGroupArray Char := (removeItem 3 scenC 7).getD scenC

/-- `scenC1` after `removeGroup(1)`. -/
def scenC2 : MultiGroupArray Char := removeGroup 3 scenC1 1

/-- A concrete sequence exercising every mutating operation, used to
instantiate the sequence-level theorems. -/
def sampleOps : List (Op Char) :=
  [Op.addItemArray 0 ['A', 'B', 'C', 'D'], Op.addItemArray 1 ['E', 'F', 'G', 'H'],
    Op.addItemArray 2 ['I', 'J', 'K', 'L'], Op.removeItem 7, Op.removeGroup 1,
    Op.moveItemToGroup 0 2, Op.setItemArray 1 ['X', 'Y'], Op.addItem 0 'Q']

/-! ### Pointwise characterization of the loop helpers -/

theorem writeSeq_length (data : List α) : ∀ (l : List α) (pos : ℕ),
    (writeSeq l pos data).length = l.length := by
  induction data with
  | nil => intro l pos; rfl
  | cons x xs ih => intro l pos; simp [writeSeq, ih]

theorem writeSeq_getElem? (data : List α) : ∀ (l : List α) (pos : ℕ),
    pos + data.length ≤ l.length → ∀ j : ℕ,
    (writeSeq l pos data)[j]? =
      if pos ≤ j ∧ j < pos + data.length then data[j - pos]? else l[j]? := by
  induction data with
  | nil =>
    intro l pos _ j
    rw [if_neg (by simp only [List.length_nil]; omega)]; rfl
  | cons x xs ih =>
    intro l pos h j
    simp only [List.length_cons] at h
    have h' : (pos + 1) + xs.length ≤ (l.set pos x).length := by
      simp only [List.length_set]; omega
    show (writeSeq (l.set pos x) (pos + 1) xs)[j]? = _
    rw [ih (l.set pos x) (pos + 1) h' j]
    by_cases h1 : pos + 1 ≤ j ∧ j < pos + 1 + xs.length
    · rw [if_pos h1, if_pos (by simp only [List.length_cons]; omega)]
      have hj : j - pos = (j - (pos + 1)) + 1 := by omega
      rw [hj, List.getElem?_cons_succ]
    · rw [if_neg h1]
      by_cases h2 : j = pos
      · subst h2
        rw [List.getElem?_set_self (by omega), if_pos (by simp only [List.length_cons]; omega)]
        simp
      · rw [List.getElem?_set_ne (fun he => h2 he.symm),
          if_neg (by simp only [List.length_cons]; omega)]

theorem shiftTailRight_length : ∀ (n : ℕ) (l : List α) (stop d : ℕ),
    (shiftTailRight l stop d n).length = l.length := by
  intro n
  induction n with
  | zero => intro l stop d; rfl
  | succ n ih => intro l stop d; show (shiftTailRight _ stop d n).length = _; rw [ih]; simp

theorem shiftTailRight_getElem? : ∀ (n : ℕ) (l : List α) (stop d : ℕ),
    stop + n ≤ l.length → d ≤ stop → ∀ j : ℕ,
    (shiftTailRight l stop d n)[j]? =
      if stop ≤ j ∧ j < stop + n then l[j - d]? else l[j]? := by
  intro n
  induction n with
  | zero => intro l stop d _ _ j; rw [if_neg (by omega)]; rfl
  | succ n ih =>
    intro l stop d h hd j
    have hsn : stop + n < l.length := by omega
    have hlen : stop + n ≤ (l.set (stop + n) (l.getD (stop + n - d) default)).length := by
      simp only [List.length_set]; omega
    show (shiftTailRight (l.set (stop + n) (l.getD (stop + n - d) default)) stop d n)[j]? = _
    rw [ih (l.set (stop + n) (l.getD (stop + n - d) default)) stop d hlen hd j]
    by_cases h1 : stop ≤ j ∧ j < stop + n
    · rw [if_pos h1, if_pos (by omega), List.getElem?_set_ne (by omega)]
    · rw [if_neg h1]
      by_cases h2 : j = stop + n
      · subst h2
        rw [List.getElem?_set_self hsn, if_pos (by omega),
          List.getD_eq_getElem?_getD, List.getElem?_eq_getElem (l := l) (by omega)]
        simp
      · rw [List.getElem?_set_ne (fun he => h2 he.symm), if_neg (by omega)]

theorem shiftTailLeft_length : ∀ (n : ℕ) (l : List α) (d i : ℕ),
    (shiftTailLeft l d i n).length = l.length := by
  intro n
  induction n with
  | zero => intro l d i; rfl
  | succ n ih => intro l d i; show (shiftTailLeft _ d (i + 1) n).length = _; rw [ih]; simp

theorem shiftTailLeft_getElem? : ∀ (n : ℕ) (l : List α) (d i : ℕ),
    d ≤ i → i + n ≤ l.length → ∀ j : ℕ,
    (shiftTailLeft l d i n)[j]? =
      if i - d ≤ j ∧ j < i - d + n then l[j + d]? else l[j]? := by
  intro n
  induction n with
  | zero => intro l d i _ _ j; rw [if_neg (by omega)]; rfl
  | succ n ih =>
    intro l d i hd h j
    have hi : i < l.length := by omega
    have hlen : (i + 1) + n ≤ (l.set (i - d) (l.getD i default)).length := by
      simp only [List.length_set]; omega
    show (shiftTailLeft (l.set (i - d) (l.getD i default)) d (i + 1) n)[j]? = _
    rw [ih (l.set (i - d) (l.getD i default)) d (i + 1) (by omega) hlen j]
    by_cases h1 : (i + 1) - d ≤ j ∧ j < (i + 1) - d + n
    · rw [if_pos h1, if_pos (by omega), List.getElem?_set_ne (by omega)]
    · rw [if_neg h1]
      by_cases h2 : j = i - d
      · subst h2
        rw [List.getElem?_set_self (by omega), if_pos (by omega),
          List.getD_eq_getElem?_getD, List.getElem?_eq_getElem (l := l) (by omega)]
        have : i - d + d = i := by omega
        rw [this]; simp
      · rw [List.getElem?_set_ne (fun he => h2 he.symm), if_neg (by omega)]

theorem offsetSplitsGo_length (offset : ℤ) (start stop : ℕ) :
    ∀ (l : List ℤ) (i : ℕ), (offsetSplitsGo offset start stop i l).length = l.length := by
  intro l
  induction l with
  | nil => intro i; rfl
  | cons x xs ih => intro i; show _ + 1 = _ + 1; rw [ih]

theorem offsetSplitsGo_getElem? (offset : ℤ) (start stop : ℕ) :
    ∀ (l : List ℤ) (i0 j : ℕ),
    (offsetSplitsGo offset start stop i0 l)[j]? =
      (l[j]?).map (fun x => if start ≤ i0 + j ∧ i0 + j < stop - 1 then x + offset else x) := by
  intro l
  induction l with
  | nil => intro i0 j; rfl
  | cons x xs ih =>
    intro i0 j
    cases j with
    | zero => simp [offsetSplitsGo]
    | succ j =>
      simp only [offsetSplitsGo, List.getElem?_cons_succ]
      rw [ih (i0 + 1) j]
      have hadd : i0 + 1 + j = i0 + (j + 1) := by omega
      rw [hadd]

theorem offsetSplits_length (G : ℕ) (splits : List ℤ) (offset : ℤ) (start stop : ℕ) :
    (offsetSplits G splits offset start stop).length = splits.length := by
  unfold offsetSplits
  split
  · exact offsetSplitsGo_length offset start stop splits 0
  · rfl

theorem offsetSplits_getElem? (G : ℕ) (splits : List ℤ) (offset : ℤ) (start stop : ℕ)
    (j : ℕ) :
    (offsetSplits G splits offset start stop)[j]? =
      (splits[j]?).map
        (fun x => if start < G - 1 ∧ start ≤ j ∧ j < stop - 1 then x + offset else x) := by
  unfold offsetSplits
  split
  · rename_i hlt
    rw [offsetSplitsGo_getElem? offset start stop splits 0 j]
    cases splits[j]? with
    | none => rfl
    | some x =>
      simp only [Option.map_some']
      by_cases h1 : start ≤ 0 + j ∧ 0 + j < stop - 1
      · rw [if_pos h1, if_pos ⟨hlt, by omega, by omega⟩]
      · rw [if_neg h1, if_neg (by omega)]
  · rename_i hge
    cases splits[j]? with
    | none => rfl
    | some x =>
      simp only [Option.map_some']
      rw [if_neg (by omega)]

/-- Index form of the three-piece splice `take A ++ data ++ drop R'`,
the normal form of every buffer mutation below. -/
theorem splice_getElem? (arr data : List α) (A R' : ℕ) (hA : A ≤ arr.length)
    (hR : R' ≤ arr.length) (j : ℕ) :
    (arr.take A ++ (data ++ arr.drop R'))[j]? =
      if j < A then arr[j]?
      else if j < A + data.length then data[j - A]?
      else if j < A + data.length + (arr.length - R') then arr[R' + (j - A - data.length)]?
      else none := by
  have hlt : (arr.take A).length = A := by
    simp only [List.length_take]; omega
  by_cases h1 : j < A
  · rw [List.getElem?_append_left (by omega), if_pos h1]
    exact List.getElem?_take_of_lt h1
  · rw [if_neg h1, List.getElem?_append_right (by omega), hlt]
    by_cases h2 : j < A + data.length
    · rw [List.getElem?_append_left (by omega), if_pos h2]
    · rw [if_neg h2, List.getElem?_append_right (by omega), List.getElem?_drop]
      by_cases h3 : j < A + data.length + (arr.length - R')
      · rw [if_pos h3]
      · rw [if_neg h3]
        exact List.getElem?_eq_none (by omega)

theorem modifyData_itemArray_replace (G : ℕ) (s : MultiGroupArray α) (g : ℕ) (data : List α)
    (hL : 0 ≤ groupPosL G s g) (hLR : groupPosL G s g ≤ groupPosR G s g)
    (hR : groupPosR G s g ≤ (s.itemArray.length : ℤ)) :
    (modifyData G s g data true).itemArray =
      s.itemArray.take (groupPosL G s g).toNat ++
        (data ++ s.itemArray.drop (groupPosR G s g).toNat) := by
  have hLn : (groupPosL G s g).toNat ≤ s.itemArray.length := by omega
  have hRn : (groupPosR G s g).toNat ≤ s.itemArray.length := by omega
  apply List.ext_getElem?
  intro j
  rw [splice_getElem? s.itemArray data (groupPosL G s g).toNat (groupPosR G s g).toNat hLn hRn j]
  simp only [modifyData, if_true]
  by_cases hpos : 0 < (data.length : ℤ) - (groupPosR G s g - groupPosL G s g)
  · rw [if_pos hpos]
    rw [writeSeq_getElem?]
    · rw [shiftTailRight_getElem?]
      · simp only [List.length_append, List.length_replicate]
        split_ifs <;>
          first
            | rfl
            | (exfalso; omega)
            | (simp (disch := omega) only [List.getElem?_append_left]; done)
            | (simp (disch := omega) only [List.getElem?_append_left]; congr 1; omega)
            | (congr 1; omega)
            | (exact List.getElem?_eq_none
                (by simp only [List.length_append, List.length_replicate]; omega))
      · simp only [List.length_append, List.length_replicate]; omega
      · omega
    · rw [shiftTailRight_length]
      simp only [List.length_append, List.length_replicate]; omega
  · rw [if_neg hpos]
    by_cases hneg : (data.length : ℤ) - (groupPosR G s g - groupPosL G s g) < 0
    · rw [if_pos hneg]
      rw [writeSeq_getElem?]
      · rw [List.getElem?_take]
        rw [shiftTailLeft_getElem?]
        · split_ifs <;>
            first
              | rfl
              | (exfalso; omega)
              | (congr 1; omega)
              | (exact List.getElem?_eq_none (by omega))
        · omega
        · omega
      · simp only [List.length_take, shiftTailLeft_length]; omega
    · rw [if_neg hneg]
      rw [writeSeq_getElem?]
      · split_ifs <;>
          first
            | rfl
            | (exfalso; omega)
            | (congr 1; omega)
            | (exact List.getElem?_eq_none (by omega))
      · omega

theorem modifyData_itemArray_append (G : ℕ) (s : MultiGroupArray α) (g : ℕ) (data : List α)
    (hL : 0 ≤ groupPosL G s g) (hLR : groupPosL G s g ≤ groupPosR G s g)
    (hR : groupPosR G s g ≤ (s.itemArray.length : ℤ)) :
    (modifyData G s g data false).itemArray =
      s.itemArray.take (groupPosR G s g).toNat ++
        (data ++ s.itemArray.drop (groupPosR G s g).toNat) := by
  have hRn : (groupPosR G s g).toNat ≤ s.itemArray.length := by omega
  apply List.ext_getElem?
  intro j
  rw [splice_getElem? s.itemArray data (groupPosR G s g).toNat (groupPosR G s g).toNat hRn hRn j]
  simp only [modifyData, Bool.false_eq_true, if_false]
  rw [show ((data.length : ℤ)).toNat = data.length from by omega, List.take_length]
  by_cases hpos : 0 < (data.length : ℤ)
  · rw [if_pos hpos]
    rw [writeSeq_getElem?]
    · rw [shiftTailRight_getElem?]
      · simp only [List.length_append, List.length_replicate]
        split_ifs <;>
          first
            | rfl
            | (exfalso; omega)
            | (simp (disch := omega) only [List.getElem?_append_left]; done)
            | (simp (disch := omega) only [List.getElem?_append_left]; congr 1; omega)
            | (congr 1; omega)
            | (exact List.getElem?_eq_none
                (by simp only [List.length_append, List.length_replicate]; omega))
      · simp only [List.length_append, List.length_replicate]; omega
      · omega
    · rw [shiftTailRight_length]
      simp only [List.length_append, List.length_replicate]; omega
  · rw [if_neg hpos, if_neg (by omega)]
    have hnil : data = [] := List.eq_nil_of_length_eq_zero (by omega)
    subst hnil
    show s.itemArray[j]? = _
    simp only [List.length_nil]
    split_ifs <;>
      first
        | rfl
        | (exfalso; omega)
        | (congr 1; omega)
        | (exact List.getElem?_eq_none (by omega))


/-- `modifyData` updates the splits by `offsetSplits` with the computed
length delta. -/
theorem modifyData_splits (G : ℕ) (s : MultiGroupArray α) (g : ℕ) (data : List α)
    (replace : Bool) :
    (modifyData G s g data replace).splits =
      offsetSplits G s.splits (lengthDiff G s g data replace) g G := rfl

theorem modifyData_length_replace (G : ℕ) (s : MultiGroupArray α) (g : ℕ) (data : List α)
    (hL : 0 ≤ groupPosL G s g) (hLR : groupPosL G s g ≤ groupPosR G s g)
    (hR : groupPosR G s g ≤ (s.itemArray.length : ℤ)) :
    ((modifyData G s g data true).itemArray.length : ℤ) =
      (s.itemArray.length : ℤ) + ((data.length : ℤ) - (groupPosR G s g - groupPosL G s g)) := by
  rw [modifyData_itemArray_replace G s g data hL hLR hR]
  simp only [List.length_append, List.length_take, List.length_drop]
  omega

theorem modifyData_length_append (G : ℕ) (s : MultiGroupArray α) (g : ℕ) (data : List α)
    (hL : 0 ≤ groupPosL G s g) (hLR : groupPosL G s g ≤ groupPosR G s g)
    (hR : groupPosR G s g ≤ (s.itemArray.length : ℤ)) :
    ((modifyData G s g data false).itemArray.length : ℤ) =
      (s.itemArray.length : ℤ) + (data.length : ℤ) := by
  rw [modifyData_itemArray_append G s g data hL hLR hR]
  simp only [List.length_append, List.length_take, List.length_drop]
  omega



/-! ### Boundaries and the invariant -/

theorem groupPosL_eq_boundary (G : ℕ) (s : MultiGroupArray α) (g : ℕ) (hg : g < G) :
    groupPosL G s g = boundary G s g := by
  unfold groupPosL boundary
  by_cases h0 : g = 0
  · rw [if_pos h0, if_pos h0]
  · rw [if_neg h0, if_neg h0, if_neg (by omega)]

theorem groupPosR_eq_boundary (G : ℕ) (s : MultiGroupArray α) (g : ℕ) (hg : g < G) :
    groupPosR G s g = boundary G s (g + 1) := by
  unfold groupPosR boundary
  by_cases h1 : g = G - 1
  · rw [if_pos h1, if_neg (by omega), if_pos (by omega)]
  · rw [if_neg h1, if_neg (by omega), if_neg (by omega),
      show g + 1 - 1 = g from by omega]

theorem boundary_mono (G : ℕ) (s : MultiGroupArray α) (hInv : Invariant G s) :
    ∀ m j, j + m ≤ G → boundary G s j ≤ boundary G s (j + m) := by
  intro m
  induction m with
  | zero => intro j _; exact le_refl _
  | succ m ih =>
    intro j hj
    calc boundary G s j ≤ boundary G s (j + m) := ih j (by omega)
      _ ≤ boundary G s (j + m + 1) := hInv.2 (j + m) (by omega)

theorem boundary_le (G : ℕ) (s : MultiGroupArray α) (hInv : Invariant G s) (j k : ℕ)
    (hjk : j ≤ k) (hk : k ≤ G) : boundary G s j ≤ boundary G s k := by
  have := boundary_mono G s hInv (k - j) j (by omega)
  rwa [show j + (k - j) = k from by omega] at this

theorem boundary_zero (G : ℕ) (s : MultiGroupArray α) : boundary G s 0 = 0 := rfl

theorem boundary_last (G : ℕ) (s : MultiGroupArray α) (hG : 0 < G) :
    boundary G s G = (s.itemArray.length : ℤ) := by
  unfold boundary
  rw [if_neg (by omega), if_pos (le_refl G)]

theorem getD_offsetSplits (G : ℕ) (splits : List ℤ) (offset : ℤ) (start stop j : ℕ) :
    (offsetSplits G splits offset start stop).getD j 0 =
      if j < splits.length ∧ start < G - 1 ∧ start ≤ j ∧ j < stop - 1 then
        splits.getD j 0 + offset
      else splits.getD j 0 := by
  rw [List.getD_eq_getElem?_getD, List.getD_eq_getElem?_getD,
    offsetSplits_getElem? G splits offset start stop j]
  by_cases hj : j < splits.length
  · rw [List.getElem?_eq_getElem hj]
    simp only [Option.map_some', Option.getD_some]
    by_cases hc : start < G - 1 ∧ start ≤ j ∧ j < stop - 1
    · rw [if_pos hc, if_pos ⟨hj, hc⟩]
    · rw [if_neg hc, if_neg (by tauto)]
  · rw [show splits[j]? = none from List.getElem?_eq_none (by omega)]
    simp only [Option.map_none', Option.getD_none]
    rw [if_neg (by tauto)]


theorem boundary_modifyData (G : ℕ) (s : MultiGroupArray α) (g : ℕ) (data : List α)
    (replace : Bool) (hg : g < G) (hInv : Invariant G s) (k : ℕ) (hk : k ≤ G) :
    boundary G (modifyData G s g data replace) k =
      if k ≤ g then boundary G s k
      else boundary G s k + lengthDiff G s g data replace := by
  have hG0 : 0 < G := by omega
  have h0g : 0 ≤ boundary G s g := by
    have h := boundary_le G s hInv 0 g (by omega) (by omega)
    rwa [boundary_zero] at h
  have hgg : boundary G s g ≤ boundary G s (g + 1) := hInv.2 g hg
  have hgl : boundary G s (g + 1) ≤ (s.itemArray.length : ℤ) := by
    have h := boundary_le G s hInv (g + 1) G (by omega) (le_refl G)
    rwa [boundary_last G s hG0] at h
  have hL0 : 0 ≤ groupPosL G s g := by rw [groupPosL_eq_boundary G s g hg]; exact h0g
  have hLR : groupPosL G s g ≤ groupPosR G s g := by
    rw [groupPosL_eq_boundary G s g hg, groupPosR_eq_boundary G s g hg]; exact hgg
  have hRl : groupPosR G s g ≤ (s.itemArray.length : ℤ) := by
    rw [groupPosR_eq_boundary G s g hg]; exact hgl
  by_cases hk0 : k = 0
  · subst hk0
    rw [if_pos (by omega)]
    rfl
  · by_cases hkG : G ≤ k
    · have hkG' : k = G := by omega
      rw [hkG']
      rw [if_neg (by omega), boundary_last G _ hG0, boundary_last G s hG0]
      cases replace with
      | false =>
        rw [modifyData_length_append G s g data hL0 hLR hRl]
        unfold lengthDiff
        rw [if_neg (by simp)]
      | true =>
        rw [modifyData_length_replace G s g data hL0 hLR hRl]
        unfold lengthDiff
        rw [if_pos rfl]
    · rw [show boundary G (modifyData G s g data replace) k =
          (modifyData G s g data replace).splits.getD (k - 1) 0 from by
        unfold boundary; rw [if_neg hk0, if_neg (by omega)]]
      rw [show boundary G s k = s.splits.getD (k - 1) 0 from by
        unfold boundary; rw [if_neg hk0, if_neg (by omega)]]
      rw [modifyData_splits, getD_offsetSplits]
      have hlen : s.splits.length = G - 1 := hInv.1
      by_cases hkg : k ≤ g
      · rw [if_neg (by omega), if_pos hkg]
      · rw [if_pos ⟨by omega, by omega, by omega, by omega⟩, if_neg hkg]

theorem invariant_modifyData (G : ℕ) (s : MultiGroupArray α) (g : ℕ) (data : List α)
    (replace : Bool) (hg : g < G) (hInv : Invariant G s) :
    Invariant G (modifyData G s g data replace) := by
  have hdiff : -(boundary G s (g + 1) - boundary G s g) ≤ lengthDiff G s g data replace := by
    have hgg := hInv.2 g hg
    unfold lengthDiff
    rw [groupPosL_eq_boundary G s g hg, groupPosR_eq_boundary G s g hg]
    split <;> omega
  constructor
  · rw [modifyData_splits, offsetSplits_length]; exact hInv.1
  · intro k hk
    rw [boundary_modifyData G s g data replace hg hInv k (by omega),
      boundary_modifyData G s g data replace hg hInv (k + 1) (by omega)]
    have hbk := hInv.2 k hk
    by_cases h1 : k + 1 ≤ g
    · rw [if_pos (by omega), if_pos h1]; exact hbk
    · by_cases h2 : k ≤ g
      · rw [if_pos h2, if_neg h1]
        have hkg : k = g := by omega
        subst hkg
        omega
      · rw [if_neg h2, if_neg (by omega)]; omega


/-! ### Characterizing the group-lookup scan -/

theorem getItemGroupGo_spec (G : ℕ) (s : MultiGroupArray α) (i : ℤ)
    (hInv : Invariant G s) (h0 : 0 ≤ i) (hi : i < (s.itemArray.length : ℤ)) :
    ∀ (n start : ℕ), n = G - start → start < G → boundary G s start ≤ i →
    ∃ g : ℕ, getItemGroupGo G s i n start = (g : ℤ) ∧ start ≤ g ∧ g < G ∧
      boundary G s g ≤ i ∧ i < boundary G s (g + 1) ∧
      ∀ g', start ≤ g' → g' < g → boundary G s (g' + 1) ≤ i := by
  intro n
  induction n with
  | zero => intro start hn hstart _; omega
  | succ n ih =>
    intro start hn hstart hlow
    by_cases hbr : i < groupPosR G s start
    · refine ⟨start, ?_, le_refl _, hstart, hlow, ?_, ?_⟩
      · simp only [getItemGroupGo]
        rw [if_pos hbr]
      · rw [← groupPosR_eq_boundary G s start hstart]; exact hbr
      · intro g' h1 h2; omega
    · have hnext : boundary G s (start + 1) ≤ i := by
        rw [← groupPosR_eq_boundary G s start hstart]; omega
      have hstart1 : start + 1 < G := by
        by_contra hc
        have hSG : start + 1 = G := by omega
        have hlen : boundary G s (start + 1) = (s.itemArray.length : ℤ) := by
          rw [hSG]; exact boundary_last G s (by omega)
        omega
      obtain ⟨g, hg1, hg2, hg3, hg4, hg5, hg6⟩ := ih (start + 1) (by omega) hstart1 hnext
      refine ⟨g, ?_, by omega, hg3, hg4, hg5, ?_⟩
      · simp only [getItemGroupGo]
        rw [if_neg hbr]; exact hg1
      · intro g' h1 h2
        by_cases hgs : g' = start
        · rw [hgs]; exact hnext
        · exact hg6 g' (by omega) h2


theorem getItemGroup_spec (G : ℕ) (s : MultiGroupArray α) (i : ℤ)
    (hInv : Invariant G s) (h0 : 0 ≤ i) (hi : i < (s.itemArray.length : ℤ)) (hG : 0 < G) :
    ∃ g : ℕ, getItemGroup G s i 0 = (g : ℤ) ∧ g < G ∧
      boundary G s g ≤ i ∧ i < boundary G s (g + 1) ∧
      ∀ g', g' < g → boundary G s (g' + 1) ≤ i := by
  obtain ⟨g, h1, _, h3, h4, h5, h6⟩ :=
    getItemGroupGo_spec G s i hInv h0 hi (G - 0) 0 rfl hG (by rw [boundary_zero]; exact h0)
  exact ⟨g, h1, h3, h4, h5, fun g' hg' => h6 g' (by omega) hg'⟩

theorem getItemGroupGo_out (G : ℕ) (s : MultiGroupArray α) (i : ℤ)
    (hInv : Invariant G s) (hi : (s.itemArray.length : ℤ) ≤ i) :
    ∀ (n start : ℕ), n = G - start → start ≤ G → getItemGroupGo G s i n start = -1 := by
  intro n
  induction n with
  | zero =>
    intro start hn hle
    have hsg : start = G := by omega
    simp only [getItemGroupGo]
    rw [if_pos hsg]
  | succ n ih =>
    intro start hn hle
    have hstart : start < G := by omega
    have hbr : ¬ i < groupPosR G s start := by
      rw [groupPosR_eq_boundary G s start hstart]
      have h := boundary_le G s hInv (start + 1) G (by omega) (le_refl G)
      rw [boundary_last G s (by omega)] at h
      omega
    simp only [getItemGroupGo]
    rw [if_neg hbr]
    exact ih (start + 1) (by omega) (by omega)

theorem getItemGroup_out (G : ℕ) (s : MultiGroupArray α) (i : ℤ)
    (hInv : Invariant G s) (hi : (s.itemArray.length : ℤ) ≤ i) (start : ℕ) (hle : start ≤ G) :
    getItemGroup G s i start = -1 :=
  getItemGroupGo_out G s i hInv hi (G - start) start rfl hle

theorem getItemGroup_of_neg (G : ℕ) (s : MultiGroupArray α) (i : ℤ)
    (hInv : Invariant G s) (hi : i < 0) (start : ℕ) (hstart : start < G) :
    getItemGroup G s i start = (start : ℤ) := by
  have h1 : 0 ≤ groupPosR G s start := by
    rw [groupPosR_eq_boundary G s start hstart]
    have h := boundary_le G s hInv 0 (start + 1) (by omega) (by omega)
    rwa [boundary_zero] at h
  show getItemGroupGo G s i (G - start) start = (start : ℤ)
  rw [show G - start = (G - start - 1) + 1 from by omega]
  simp only [getItemGroupGo]
  rw [if_pos (by omega)]

/-! ### Boundary effect of removeItem and moveItemToGroup -/

theorem boundary_state (G : ℕ) (arr : List α) (splits : List ℤ) (k : ℕ) :
    boundary G (⟨arr, splits⟩ : MultiGroupArray α) k =
      if k = 0 then 0 else if G ≤ k then (arr.length : ℤ) else splits.getD (k - 1) 0 := rfl

theorem boundary_removeItem (G : ℕ) (s : MultiGroupArray α) (arr' : List α) (g : ℕ)
    (hInv : Invariant G s) (hg : g < G)
    (hlen : (arr'.length : ℤ) = (s.itemArray.length : ℤ) - 1) (k : ℕ) (hk : k ≤ G) :
    boundary G (⟨arr', offsetSplits G s.splits (-1) g G⟩ : MultiGroupArray α) k =
      if k ≤ g then boundary G s k else boundary G s k - 1 := by
  have hG0 : 0 < G := by omega
  rw [boundary_state]
  by_cases hk0 : k = 0
  · rw [if_pos hk0, if_pos (by omega), hk0, boundary_zero]
  · by_cases hkG : G ≤ k
    · have hkG' : k = G := by omega
      rw [if_neg hk0, if_pos hkG, hkG', if_neg (by omega), boundary_last G s hG0]
      omega
    · rw [if_neg hk0, if_neg hkG, getD_offsetSplits]
      have hlen' : s.splits.length = G - 1 := hInv.1
      rw [show boundary G s k = s.splits.getD (k - 1) 0 from by
        unfold boundary; rw [if_neg hk0, if_neg hkG]]
      by_cases hkg : k ≤ g
      · rw [if_neg (by omega), if_pos hkg]
      · rw [if_pos ⟨by omega, by omega, by omega, by omega⟩, if_neg hkg]
        omega

theorem boundary_moveRight (G : ℕ) (s : MultiGroupArray α) (arr' : List α)
    (old target : ℕ) (hInv : Invariant G s) (hot : old < target) (ht : target < G)
    (hlen : arr'.length = s.itemArray.length) (k : ℕ) (hk : k ≤ G) :
    boundary G (⟨arr', offsetSplits G s.splits (-1) old (target + 1)⟩ : MultiGroupArray α) k =
      if old + 1 ≤ k ∧ k ≤ target then boundary G s k - 1 else boundary G s k := by
  have hG0 : 0 < G := by omega
  rw [boundary_state]
  by_cases hk0 : k = 0
  · rw [if_pos hk0, if_neg (by omega), hk0, boundary_zero]
  · by_cases hkG : G ≤ k
    · have hkG' : k = G := by omega
      rw [if_neg hk0, if_pos hkG, hkG', if_neg (by omega), boundary_last G s hG0, hlen]
    · rw [if_neg hk0, if_neg hkG, getD_offsetSplits]
      have hlen' : s.splits.length = G - 1 := hInv.1
      rw [show boundary G s k = s.splits.getD (k - 1) 0 from by
        unfold boundary; rw [if_neg hk0, if_neg hkG]]
      by_cases hkg : old + 1 ≤ k ∧ k ≤ target
      · rw [if_pos ⟨by omega, by omega, by omega, by omega⟩, if_pos hkg]
        omega
      · rw [if_neg (by omega), if_neg hkg]

theorem boundary_moveLeft (G : ℕ) (s : MultiGroupArray α) (arr' : List α)
    (old target : ℕ) (hInv : Invariant G s) (hto : target < old) (ho : old < G)
    (hlen : arr'.length = s.itemArray.length) (k : ℕ) (hk : k ≤ G) :
    boundary G (⟨arr', offsetSplits G s.splits 1 target (old + 1)⟩ : MultiGroupArray α) k =
      if target + 1 ≤ k ∧ k ≤ old then boundary G s k + 1 else boundary G s k := by
  have hG0 : 0 < G := by omega
  rw [boundary_state]
  by_cases hk0 : k = 0
  · rw [if_pos hk0, if_neg (by omega), hk0, boundary_zero]
  · by_cases hkG : G ≤ k
    · have hkG' : k = G := by omega
      rw [if_neg hk0, if_pos hkG, hkG', if_neg (by omega), boundary_last G s hG0, hlen]
    · rw [if_neg hk0, if_neg hkG, getD_offsetSplits]
      have hlen' : s.splits.length = G - 1 := hInv.1
      rw [show boundary G s k = s.splits.getD (k - 1) 0 from by
        unfold boundary; rw [if_neg hk0, if_neg hkG]]
      by_cases hkg : target + 1 ≤ k ∧ k ≤ old
      · rw [if_pos ⟨by omega, by omega, by omega, by omega⟩, if_pos hkg]
      · rw [if_neg (by omega), if_neg hkg]


/-! ### Equation lemmas for removeItem and moveItemToGroup -/

theorem removeItem_eq (G : ℕ) (s : MultiGroupArray α) (i : ℤ) (g : ℕ)
    (hgi : getItemGroup G s i 0 = (g : ℤ)) (h0 : 0 ≤ i) :
    removeItem G s i =
      some ⟨s.itemArray.eraseIdx i.toNat, offsetSplits G s.splits (-1) g G⟩ := by
  unfold removeItem
  rw [hgi, if_neg (by omega), if_pos h0, Int.toNat_natCast]

theorem moveItemToGroup_right_eq (G : ℕ) (s : MultiGroupArray α) (i : ℤ) (target old : ℕ)
    (h0 : 0 ≤ i) (hi : i < (s.itemArray.length : ℤ))
    (hgi : getItemGroup G s i 0 = (old : ℤ)) (hot : old < target) :
    moveItemToGroup G s i target =
      ((⟨(shiftTailLeft s.itemArray 1 (i.toNat + 1)
            ((groupPosL G (⟨s.itemArray, offsetSplits G s.splits (-1) old (target + 1)⟩ :
                MultiGroupArray α) target).toNat - i.toNat)).set
          (groupPosL G (⟨s.itemArray, offsetSplits G s.splits (-1) old (target + 1)⟩ :
              MultiGroupArray α) target).toNat
          (s.itemArray.getD i.toNat default),
        offsetSplits G s.splits (-1) old (target + 1)⟩ : MultiGroupArray α),
       some (groupPosL G (⟨s.itemArray, offsetSplits G s.splits (-1) old (target + 1)⟩ :
          MultiGroupArray α) target)) := by
  simp only [moveItemToGroup]
  rw [if_neg (by omega), hgi, if_neg (by omega), if_neg (by omega), if_pos (by omega),
    show ((old : ℤ)).toNat = old from by omega]

theorem moveItemToGroup_left_eq (G : ℕ) (s : MultiGroupArray α) (i : ℤ) (target old : ℕ)
    (h0 : 0 ≤ i) (hi : i < (s.itemArray.length : ℤ))
    (hgi : getItemGroup G s i 0 = (old : ℤ)) (hto : target < old) :
    moveItemToGroup G s i target =
      ((⟨(shiftTailRight s.itemArray
            ((groupPosR G (⟨s.itemArray, offsetSplits G s.splits 1 target (old + 1)⟩ :
                MultiGroupArray α) target - 1).toNat + 1) 1
            (i.toNat - (groupPosR G (⟨s.itemArray,
                offsetSplits G s.splits 1 target (old + 1)⟩ :
                MultiGroupArray α) target - 1).toNat)).set
          (groupPosR G (⟨s.itemArray, offsetSplits G s.splits 1 target (old + 1)⟩ :
              MultiGroupArray α) target - 1).toNat
          (s.itemArray.getD i.toNat default),
        offsetSplits G s.splits 1 target (old + 1)⟩ : MultiGroupArray α),
       some (groupPosR G (⟨s.itemArray, offsetSplits G s.splits 1 target (old + 1)⟩ :
          MultiGroupArray α) target - 1)) := by
  simp only [moveItemToGroup]
  rw [if_neg (by omega), hgi, if_neg (by omega), if_neg (by omega), if_neg (by omega),
    show ((old : ℤ)).toNat = old from by omega]

theorem moveItemToGroup_same_eq (G : ℕ) (s : MultiGroupArray α) (i : ℤ) (target old : ℕ)
    (h0 : 0 ≤ i) (hi : i < (s.itemArray.length : ℤ))
    (hgi : getItemGroup G s i 0 = (old : ℤ)) (heq : target = old) :
    moveItemToGroup G s i target = (s, some i) := by
  simp only [moveItemToGroup]
  rw [if_neg (by omega), hgi, if_neg (by omega), if_pos (by omega)]

/-! ### Invariant preservation of removeItem and moveItemToGroup -/

theorem invariant_removeItem (G : ℕ) (s : MultiGroupArray α) (i : ℤ)
    (hInv : Invariant G s) (hG : 0 < G) (h0 : 0 ≤ i) (hi : i < (s.itemArray.length : ℤ)) :
    Invariant G ((removeItem G s i).getD s) := by
  obtain ⟨g, hg1, hg2, hg3, hg4, hg5⟩ := getItemGroup_spec G s i hInv h0 hi hG
  rw [removeItem_eq G s i g hg1 h0]
  have hlenE : ((s.itemArray.eraseIdx i.toNat).length : ℤ) = (s.itemArray.length : ℤ) - 1 := by
    rw [List.length_eraseIdx_of_lt (by omega)]
    omega
  simp only [Option.getD_some]
  constructor
  · show (offsetSplits G s.splits (-1) g G).length = G - 1
    rw [offsetSplits_length]; exact hInv.1
  · intro k hk
    rw [boundary_removeItem G s _ g hInv hg2 hlenE k (by omega),
      boundary_removeItem G s _ g hInv hg2 hlenE (k + 1) (by omega)]
    have hbk := hInv.2 k hk
    by_cases h1 : k + 1 ≤ g
    · rw [if_pos (by omega), if_pos h1]; exact hbk
    · by_cases h2 : k ≤ g
      · rw [if_pos h2, if_neg h1]
        rw [show k = g from by omega] at hbk ⊢
        omega
      · rw [if_neg h2, if_neg (by omega)]; omega

theorem invariant_moveItemToGroup (G : ℕ) (s : MultiGroupArray α) (i : ℤ) (target : ℕ)
    (hInv : Invariant G s) (ht : target < G) :
    Invariant G (moveItemToGroup G s i target).1 := by
  have hG : 0 < G := by omega
  by_cases hrange : i < 0 ∨ (s.itemArray.length : ℤ) ≤ i
  · unfold moveItemToGroup
    rw [if_pos hrange]
    exact hInv
  · have h0 : 0 ≤ i := by omega
    have hi : i < (s.itemArray.length : ℤ) := by omega
    obtain ⟨old, hg1, hg2, hg3, hg4, hg5⟩ := getItemGroup_spec G s i hInv h0 hi hG
    rcases lt_trichotomy target old with hto | heq | hot
    · rw [moveItemToGroup_left_eq G s i target old h0 hi hg1 hto]
      have hlen : ((shiftTailRight s.itemArray
          ((groupPosR G (⟨s.itemArray, offsetSplits G s.splits 1 target (old + 1)⟩ :
              MultiGroupArray α) target - 1).toNat + 1) 1
          (i.toNat - (groupPosR G (⟨s.itemArray,
              offsetSplits G s.splits 1 target (old + 1)⟩ :
              MultiGroupArray α) target - 1).toNat)).set
          (groupPosR G (⟨s.itemArray, offsetSplits G s.splits 1 target (old + 1)⟩ :
              MultiGroupArray α) target - 1).toNat
          (s.itemArray.getD i.toNat default)).length = s.itemArray.length := by
        rw [List.length_set, shiftTailRight_length]
      constructor
      · show (offsetSplits G s.splits 1 target (old + 1)).length = G - 1
        rw [offsetSplits_length]; exact hInv.1
      · intro k hk
        rw [boundary_moveLeft G s _ old target hInv hto hg2 hlen k (by omega),
          boundary_moveLeft G s _ old target hInv hto hg2 hlen (k + 1) (by omega)]
        have hbk := hInv.2 k hk
        by_cases hA : target + 1 ≤ k ∧ k ≤ old
        · by_cases hB : target + 1 ≤ k + 1 ∧ k + 1 ≤ old
          · rw [if_pos hA, if_pos hB]; omega
          · rw [if_pos hA, if_neg hB]
            rw [show k = old from by omega] at hbk ⊢
            omega
        · by_cases hB : target + 1 ≤ k + 1 ∧ k + 1 ≤ old
          · rw [if_neg hA, if_pos hB]; omega
          · rw [if_neg hA, if_neg hB]; exact hbk
    · rw [moveItemToGroup_same_eq G s i target old h0 hi hg1 heq]
      exact hInv
    · rw [moveItemToGroup_right_eq G s i target old h0 hi hg1 hot]
      have hlen : ((shiftTailLeft s.itemArray 1 (i.toNat + 1)
          ((groupPosL G (⟨s.itemArray, offsetSplits G s.splits (-1) old (target + 1)⟩ :
              MultiGroupArray α) target).toNat - i.toNat)).set
          (groupPosL G (⟨s.itemArray, offsetSplits G s.splits (-1) old (target + 1)⟩ :
              MultiGroupArray α) target).toNat
          (s.itemArray.getD i.toNat default)).length = s.itemArray.length := by
        rw [List.length_set, shiftTailLeft_length]
      constructor
      · show (offsetSplits G s.splits (-1) old (target + 1)).length = G - 1
        rw [offsetSplits_length]; exact hInv.1
      · intro k hk
        rw [boundary_moveRight G s _ old target hInv hot ht hlen k (by omega),
          boundary_moveRight G s _ old target hInv hot ht hlen (k + 1) (by omega)]
        have hbk := hInv.2 k hk
        by_cases hA : old + 1 ≤ k ∧ k ≤ target
        · by_cases hB : old + 1 ≤ k + 1 ∧ k + 1 ≤ target
          · rw [if_pos hA, if_pos hB]; omega
          · rw [if_pos hA, if_neg hB]; omega
        · by_cases hB : old + 1 ≤ k + 1 ∧ k + 1 ≤ target
          · rw [if_neg hA, if_pos hB]
            rw [show k = old from by omega] at hbk ⊢
            omega
          · rw [if_neg hA, if_neg hB]; exact hbk


/-! ### Invariant along operation sequences -/

theorem invariant_emptyState (G : ℕ) : Invariant G (emptyState α G) := by
  have hz : ∀ j : ℕ, (List.replicate (G - 1) (0 : ℤ)).getD j 0 = 0 := by
    intro j
    rw [List.getD_eq_getElem?_getD, List.getElem?_replicate]
    split_ifs <;> rfl
  constructor
  · simp [emptyState]
  · intro k hk
    unfold boundary emptyState
    split_ifs <;> simp [hz]

theorem invariant_applyOp (G : ℕ) (s : MultiGroupArray α) (op : Op α) (hG : 0 < G)
    (hInv : Invariant G s) (hv : validOp G s op = true) :
    Invariant G (applyOp G s op) := by
  cases op with
  | setItemArray g d =>
    simp only [validOp, decide_eq_true_eq] at hv
    exact invariant_modifyData G s g d true hv hInv
  | addItemArray g d =>
    simp only [validOp, decide_eq_true_eq] at hv
    exact invariant_modifyData G s g d false hv hInv
  | addItem g x =>
    simp only [validOp, decide_eq_true_eq] at hv
    exact invariant_modifyData G s g [x] false hv hInv
  | removeGroup g =>
    simp only [validOp, decide_eq_true_eq] at hv
    exact invariant_modifyData G s g [] true hv hInv
  | removeItem i =>
    simp only [validOp, Bool.and_eq_true, decide_eq_true_eq] at hv
    exact invariant_removeItem G s i hInv hG hv.1 hv.2
  | moveItemToGroup i g =>
    simp only [validOp, decide_eq_true_eq] at hv
    exact invariant_moveItemToGroup G s i g hInv hv

theorem invariant_execOps (G : ℕ) (hG : 0 < G) :
    ∀ (ops : List (Op α)) (s : MultiGroupArray α), Invariant G s →
      validSeq G s ops = true → Invariant G (execOps G s ops) := by
  intro ops
  induction ops with
  | nil => intro s hInv _; exact hInv
  | cons op ops ih =>
    intro s hInv hv
    simp only [validSeq, Bool.and_eq_true] at hv
    exact ih (applyOp G s op) (invariant_applyOp G s op hG hInv hv.1) hv.2

theorem validSeq_take (G : ℕ) :
    ∀ (ops : List (Op α)) (s : MultiGroupArray α) (n : ℕ), validSeq G s ops = true →
      validSeq G s (ops.take n) = true := by
  intro ops
  induction ops with
  | nil => intro s n _; rw [List.take_nil]; rfl
  | cons op ops ih =>
    intro s n hv
    simp only [validSeq, Bool.and_eq_true] at hv
    cases n with
    | zero => rfl
    | succ n =>
      rw [List.take_succ_cons]
      show (validOp G s op && validSeq G (applyOp G s op) (ops.take n)) = true
      rw [Bool.and_eq_true]
      exact ⟨hv.1, ih (applyOp G s op) n hv.2⟩

/-- The invariant, spelled out as the partition properties of the claim:
non-decreasing splits, all splits within `[0, buffer.length]`, and the
`G` group regions tiling `[0, buffer.length)` exactly. -/
theorem invariant_package (G : ℕ) (s : MultiGroupArray α) (hG : 0 < G)
    (hInv : Invariant G s) :
    List.Chain' (· ≤ ·) s.splits ∧
    (∀ j, j < s.splits.length →
      0 ≤ s.splits.getD j 0 ∧ s.splits.getD j 0 ≤ (s.itemArray.length : ℤ)) ∧
    groupPosL G s 0 = 0 ∧
    groupPosR G s (G - 1) = (s.itemArray.length : ℤ) ∧
    (∀ g, g + 1 < G → groupPosR G s g = groupPosL G s (g + 1)) ∧
    (∀ g, g < G → groupPosL G s g ≤ groupPosR G s g) := by
  have hlen : s.splits.length = G - 1 := hInv.1
  have hbgetD : ∀ j, j < G - 1 → s.splits.getD j 0 = boundary G s (j + 1) := by
    intro j hj
    unfold boundary
    rw [if_neg (by omega), if_neg (by omega), show j + 1 - 1 = j from by omega]
  refine ⟨?_, ?_, ?_, ?_, ?_, ?_⟩
  · rw [List.chain'_iff_get]
    intro j hj
    rw [List.get_eq_getElem, List.get_eq_getElem, ← List.getD_eq_getElem s.splits 0 (by omega),
      ← List.getD_eq_getElem s.splits 0 (by omega), hbgetD j (by omega),
      hbgetD (j + 1) (by omega)]
    exact hInv.2 (j + 1) (by omega)
  · intro j hj
    rw [hbgetD j (by omega)]
    constructor
    · have h := boundary_le G s hInv 0 (j + 1) (by omega) (by omega)
      rwa [boundary_zero] at h
    · have h := boundary_le G s hInv (j + 1) G (by omega) (le_refl G)
      rwa [boundary_last G s hG] at h
  · unfold groupPosL
    rw [if_pos rfl]
  · unfold groupPosR
    rw [if_pos rfl]
  · intro g hg
    rw [groupPosR_eq_boundary G s g (by omega), groupPosL_eq_boundary G s (g + 1) (by omega)]
  · intro g hg
    rw [groupPosL_eq_boundary G s g hg, groupPosR_eq_boundary G s g hg]
    exact hInv.2 g hg


/-! ### Buffer effect of moveItemToGroup -/

theorem eraseIdx_getElem? (l : List α) (i j : ℕ) (hi : i < l.length) :
    (l.eraseIdx i)[j]? = if j < i then l[j]? else l[j + 1]? := by
  rw [List.eraseIdx_eq_take_drop_succ]
  by_cases h : j < i
  · rw [List.getElem?_append_left (by simp only [List.length_take]; omega), if_pos h,
      List.getElem?_take_of_lt h]
  · rw [List.getElem?_append_right (by simp only [List.length_take]; omega), if_neg h,
      List.getElem?_drop]
    congr 1
    simp only [List.length_take]
    omega

theorem move_spec_right (G : ℕ) (s : MultiGroupArray α) (i : ℤ) (target old : ℕ)
    (hInv : Invariant G s)
    (h0 : 0 ≤ i) (hi : i < (s.itemArray.length : ℤ)) (ht : target < G)
    (hgi : getItemGroup G s i 0 = (old : ℤ)) (hot : old < target)
    (hb1 : boundary G s old ≤ i) (hb2 : i < boundary G s (old + 1)) :
    ∃ p : ℤ, (moveItemToGroup G s i target).2 = some p ∧
      p = groupPosL G (moveItemToGroup G s i target).1 target ∧
      p = boundary G s target - 1 ∧
      (moveItemToGroup G s i target).1.itemArray.length = s.itemArray.length ∧
      (moveItemToGroup G s i target).1.itemArray[p.toNat]? = s.itemArray[i.toNat]? ∧
      (moveItemToGroup G s i target).1.itemArray.eraseIdx p.toNat =
        s.itemArray.eraseIdx i.toNat ∧
      (∀ k, k ≤ G → boundary G (moveItemToGroup G s i target).1 k =
        if old + 1 ≤ k ∧ k ≤ target then boundary G s k - 1 else boundary G s k) := by
  have hG : 0 < G := by omega
  have hlenS : s.splits.length = G - 1 := hInv.1
  have hbmono : boundary G s (old + 1) ≤ boundary G s target :=
    boundary_le G s hInv (old + 1) target (by omega) (by omega)
  have hbtl : boundary G s target ≤ (s.itemArray.length : ℤ) := by
    have h := boundary_le G s hInv target G (by omega) (le_refl G)
    rwa [boundary_last G s hG] at h
  have hnewL : groupPosL G
      (⟨s.itemArray, offsetSplits G s.splits (-1) old (target + 1)⟩ : MultiGroupArray α)
      target = boundary G s target - 1 := by
    unfold groupPosL
    rw [if_neg (by omega)]
    show (offsetSplits G s.splits (-1) old (target + 1)).getD (target - 1) 0 = _
    rw [getD_offsetSplits, if_pos ⟨by omega, by omega, by omega, by omega⟩]
    rw [show boundary G s target = s.splits.getD (target - 1) 0 from by
      unfold boundary; rw [if_neg (by omega), if_neg (by omega)]]
    omega
  rw [moveItemToGroup_right_eq G s i target old h0 hi hgi hot, hnewL]
  have hp0 : 0 ≤ boundary G s target - 1 := by omega
  have hpi : i ≤ boundary G s target - 1 := by omega
  have hplen : (boundary G s target - 1).toNat < s.itemArray.length := by omega
  have hilen : i.toNat < s.itemArray.length := by omega
  have harrlen : ((shiftTailLeft s.itemArray 1 (i.toNat + 1)
      ((boundary G s target - 1).toNat - i.toNat)).set
      (boundary G s target - 1).toNat (s.itemArray.getD i.toNat default)).length =
      s.itemArray.length := by
    rw [List.length_set, shiftTailLeft_length]
  refine ⟨boundary G s target - 1, rfl, ?_, rfl, harrlen, ?_, ?_, ?_⟩
  · unfold groupPosL
    rw [if_neg (by omega)]
    show _ = (offsetSplits G s.splits (-1) old (target + 1)).getD (target - 1) 0
    rw [getD_offsetSplits, if_pos ⟨by omega, by omega, by omega, by omega⟩]
    rw [show boundary G s target = s.splits.getD (target - 1) 0 from by
      unfold boundary; rw [if_neg (by omega), if_neg (by omega)]]
    omega
  · show ((shiftTailLeft s.itemArray 1 (i.toNat + 1)
        ((boundary G s target - 1).toNat - i.toNat)).set
        (boundary G s target - 1).toNat (s.itemArray.getD i.toNat default))[
        (boundary G s target - 1).toNat]? = _
    rw [List.getElem?_set_self (by rw [shiftTailLeft_length]; omega),
      List.getD_eq_getElem?_getD, List.getElem?_eq_getElem hilen]
    rfl
  · apply List.ext_getElem?
    intro j
    rw [eraseIdx_getElem? _ _ _ (by rw [harrlen]; omega),
      eraseIdx_getElem? _ _ _ (by omega)]
    by_cases hj : j < (boundary G s target - 1).toNat
    · rw [if_pos hj, List.getElem?_set_ne (by omega)]
      rw [shiftTailLeft_getElem?]
      · split_ifs <;> first | rfl | omega | (congr 1; omega) | (exfalso; omega)
      · omega
      · omega
    · rw [if_neg hj, List.getElem?_set_ne (by omega)]
      rw [shiftTailLeft_getElem?]
      · split_ifs <;> first | rfl | omega | (congr 1; omega) | (exfalso; omega)
      · omega
      · omega
  · intro k hk
    exact boundary_moveRight G s _ old target hInv hot ht harrlen k hk

theorem move_spec_left (G : ℕ) (s : MultiGroupArray α) (i : ℤ) (target old : ℕ)
    (hInv : Invariant G s)
    (h0 : 0 ≤ i) (hi : i < (s.itemArray.length : ℤ)) (ho : old < G)
    (hgi : getItemGroup G s i 0 = (old : ℤ)) (hto : target < old)
    (hb1 : boundary G s old ≤ i) (hb2 : i < boundary G s (old + 1)) :
    ∃ p : ℤ, (moveItemToGroup G s i target).2 = some p ∧
      p = groupPosR G (moveItemToGroup G s i target).1 target - 1 ∧
      p = boundary G s (target + 1) ∧
      (moveItemToGroup G s i target).1.itemArray.length = s.itemArray.length ∧
      (moveItemToGroup G s i target).1.itemArray[p.toNat]? = s.itemArray[i.toNat]? ∧
      (moveItemToGroup G s i target).1.itemArray.eraseIdx p.toNat =
        s.itemArray.eraseIdx i.toNat ∧
      (∀ k, k ≤ G → boundary G (moveItemToGroup G s i target).1 k =
        if target + 1 ≤ k ∧ k ≤ old then boundary G s k + 1 else boundary G s k) := by
  have hG : 0 < G := by omega
  have hlenS : s.splits.length = G - 1 := hInv.1
  have hbmono : boundary G s (target + 1) ≤ boundary G s old :=
    boundary_le G s hInv (target + 1) old (by omega) (by omega)
  have hbt0 : 0 ≤ boundary G s (target + 1) := by
    have h := boundary_le G s hInv 0 (target + 1) (by omega) (by omega)
    rwa [boundary_zero] at h
  have hnewR : groupPosR G
      (⟨s.itemArray, offsetSplits G s.splits 1 target (old + 1)⟩ : MultiGroupArray α)
      target = boundary G s (target + 1) + 1 := by
    unfold groupPosR
    rw [if_neg (by omega)]
    show (offsetSplits G s.splits 1 target (old + 1)).getD target 0 = _
    rw [getD_offsetSplits, if_pos ⟨by omega, by omega, by omega, by omega⟩]
    rw [show boundary G s (target + 1) = s.splits.getD target 0 from by
      unfold boundary; rw [if_neg (by omega), if_neg (by omega),
        show target + 1 - 1 = target from by omega]]
  rw [moveItemToGroup_left_eq G s i target old h0 hi hgi hto, hnewR]
  rw [show boundary G s (target + 1) + 1 - 1 = boundary G s (target + 1) from by omega]
  have hpi : boundary G s (target + 1) ≤ i := by omega
  have hplen : (boundary G s (target + 1)).toNat < s.itemArray.length := by omega
  have hilen : i.toNat < s.itemArray.length := by omega
  have harrlen : ((shiftTailRight s.itemArray ((boundary G s (target + 1)).toNat + 1) 1
      (i.toNat - (boundary G s (target + 1)).toNat)).set
      (boundary G s (target + 1)).toNat (s.itemArray.getD i.toNat default)).length =
      s.itemArray.length := by
    rw [List.length_set, shiftTailRight_length]
  refine ⟨boundary G s (target + 1), rfl, ?_, rfl, harrlen, ?_, ?_, ?_⟩
  · unfold groupPosR
    rw [if_neg (by omega)]
    show _ = (offsetSplits G s.splits 1 target (old + 1)).getD target 0 - 1
    rw [getD_offsetSplits, if_pos ⟨by omega, by omega, by omega, by omega⟩]
    rw [show boundary G s (target + 1) = s.splits.getD target 0 from by
      unfold boundary; rw [if_neg (by omega), if_neg (by omega),
        show target + 1 - 1 = target from by omega]]
    omega
  · show ((shiftTailRight s.itemArray ((boundary G s (target + 1)).toNat + 1) 1
        (i.toNat - (boundary G s (target + 1)).toNat)).set
        (boundary G s (target + 1)).toNat (s.itemArray.getD i.toNat default))[
        (boundary G s (target + 1)).toNat]? = _
    rw [List.getElem?_set_self (by rw [shiftTailRight_length]; omega),
      List.getD_eq_getElem?_getD, List.getElem?_eq_getElem hilen]
    rfl
  · apply List.ext_getElem?
    intro j
    rw [eraseIdx_getElem? _ _ _ (by rw [harrlen]; omega),
      eraseIdx_getElem? _ _ _ (by omega)]
    by_cases hj : j < (boundary G s (target + 1)).toNat
    · rw [if_pos hj, List.getElem?_set_ne (by omega)]
      rw [shiftTailRight_getElem?]
      · split_ifs <;> first | rfl | omega | (congr 1; omega) | (exfalso; omega)
      · omega
      · omega
    · rw [if_neg hj, List.getElem?_set_ne (by omega)]
      rw [shiftTailRight_getElem?]
      · split_ifs <;> first | rfl | omega | (congr 1; omega) | (exfalso; omega)
      · omega
      · omega
  · intro k hk
    exact boundary_moveLeft G s _ old target hInv hto ho harrlen k hk


/-! ### Regions -/

theorem groupRegion_getElem? (G : ℕ) (s : MultiGroupArray α) (g : ℕ) (j : ℕ) :
    (groupRegion G s g)[j]? =
      if j < (groupPosR G s g).toNat - (groupPosL G s g).toNat then
        s.itemArray[(groupPosL G s g).toNat + j]?
      else none := by
  unfold groupRegion
  rw [List.getElem?_take]
  by_cases hj : j < (groupPosR G s g).toNat - (groupPosL G s g).toNat
  · rw [if_pos hj, if_pos hj, List.getElem?_drop]
  · rw [if_neg hj, if_neg hj]

theorem offsetSplits_zero (G : ℕ) (splits : List ℤ) (start stop : ℕ) :
    offsetSplits G splits 0 start stop = splits := by
  apply List.ext_getElem?
  intro j
  rw [offsetSplits_getElem? G splits 0 start stop j]
  cases splits[j]? with
  | none => rfl
  | some x =>
    simp only [Option.map_some']
    split_ifs <;> simp

/-- Region contents after `setItemArray`: the target group holds exactly
the new data, every other group's contents are untouched. -/
theorem setItemArray_regions (G : ℕ) (s : MultiGroupArray α) (g : ℕ) (data : List α)
    (hInv : Invariant G s) (hg : g < G) :
    groupRegion G (setItemArray G s g data) g = data ∧
    ∀ g', g' < G → g' ≠ g →
      groupRegion G (setItemArray G s g data) g' = groupRegion G s g' := by
  have hG : 0 < G := by omega
  have hb0g : 0 ≤ boundary G s g := by
    have h := boundary_le G s hInv 0 g (by omega) (by omega); rwa [boundary_zero] at h
  have hbgg : boundary G s g ≤ boundary G s (g + 1) := hInv.2 g hg
  have hbgl : boundary G s (g + 1) ≤ (s.itemArray.length : ℤ) := by
    have h := boundary_le G s hInv (g + 1) G (by omega) (le_refl G)
    rwa [boundary_last G s hG] at h
  have hL : 0 ≤ groupPosL G s g := by rw [groupPosL_eq_boundary G s g hg]; exact hb0g
  have hLR : groupPosL G s g ≤ groupPosR G s g := by
    rw [groupPosL_eq_boundary G s g hg, groupPosR_eq_boundary G s g hg]; exact hbgg
  have hRl : groupPosR G s g ≤ (s.itemArray.length : ℤ) := by
    rw [groupPosR_eq_boundary G s g hg]; exact hbgl
  have hchar : (setItemArray G s g data).itemArray =
      s.itemArray.take (groupPosL G s g).toNat ++
        (data ++ s.itemArray.drop (groupPosR G s g).toNat) :=
    modifyData_itemArray_replace G s g data hL hLR hRl
  rw [groupPosL_eq_boundary G s g hg, groupPosR_eq_boundary G s g hg] at hchar
  have hbnd : ∀ k, k ≤ G → boundary G (setItemArray G s g data) k =
      if k ≤ g then boundary G s k
      else boundary G s k +
        ((data.length : ℤ) - (boundary G s (g + 1) - boundary G s g)) := by
    intro k hk
    rw [show setItemArray G s g data = modifyData G s g data true from rfl,
      boundary_modifyData G s g data true hg hInv k hk]
    unfold lengthDiff
    rw [if_pos rfl, groupPosL_eq_boundary G s g hg, groupPosR_eq_boundary G s g hg]
  constructor
  · apply List.ext_getElem?
    intro j
    rw [groupRegion_getElem?]
    rw [groupPosL_eq_boundary G _ g hg, groupPosR_eq_boundary G _ g hg,
      hbnd g (by omega), hbnd (g + 1) (by omega), if_pos (le_refl g),
      if_neg (show ¬(g + 1 ≤ g) from by omega)]
    rw [hchar]
    rw [splice_getElem? s.itemArray data (boundary G s g).toNat
      (boundary G s (g + 1)).toNat (by omega) (by omega)]
    split_ifs <;>
      first
        | rfl
        | (exfalso; omega)
        | (congr 1; omega)
        | (exact (List.getElem?_eq_none (by omega)).symm)
  · intro g' hg' hne
    have hb0g' : 0 ≤ boundary G s g' := by
      have h := boundary_le G s hInv 0 g' (by omega) (by omega); rwa [boundary_zero] at h
    have hbg'g' : boundary G s g' ≤ boundary G s (g' + 1) := hInv.2 g' hg'
    have hbg'l : boundary G s (g' + 1) ≤ (s.itemArray.length : ℤ) := by
      have h := boundary_le G s hInv (g' + 1) G (by omega) (le_refl G)
      rwa [boundary_last G s hG] at h
    apply List.ext_getElem?
    intro j
    rw [groupRegion_getElem?, groupRegion_getElem?]
    rw [groupPosL_eq_boundary G _ g' hg', groupPosR_eq_boundary G _ g' hg',
      groupPosL_eq_boundary G s g' hg', groupPosR_eq_boundary G s g' hg',
      hbnd g' (by omega), hbnd (g' + 1) (by omega)]
    rw [hchar]
    by_cases hlt : g' < g
    · have hm1 : boundary G s (g' + 1) ≤ boundary G s g :=
        boundary_le G s hInv (g' + 1) g (by omega) (by omega)
      rw [if_pos (show g' ≤ g from by omega), if_pos (show g' + 1 ≤ g from by omega)]
      rw [splice_getElem? s.itemArray data (boundary G s g).toNat
        (boundary G s (g + 1)).toNat (by omega) (by omega)]
      split_ifs <;>
        first
          | rfl
          | (exfalso; omega)
          | (congr 1; omega)
    · have hgt : g < g' := by omega
      have hm2 : boundary G s (g + 1) ≤ boundary G s g' :=
        boundary_le G s hInv (g + 1) g' (by omega) (by omega)
      rw [if_neg (show ¬(g' ≤ g) from by omega), if_neg (show ¬(g' + 1 ≤ g) from by omega)]
      rw [splice_getElem? s.itemArray data (boundary G s g).toNat
        (boundary G s (g + 1)).toNat (by omega) (by omega)]
      split_ifs <;>
        first
          | rfl
          | (exfalso; omega)
          | (congr 1; omega)


/-- `removeGroup` on a group whose region already has zero length
computes a zero delta and leaves both the buffer and the splits
untouched. -/
theorem removeGroup_empty_noop (G : ℕ) (s : MultiGroupArray α) (g : ℕ)
    (hEmpty : groupPosR G s g - groupPosL G s g = 0) :
    removeGroup G s g = s := by
  show modifyData G s g [] true = s
  simp only [modifyData, if_true]
  rw [show ((List.length ([] : List α) : ℤ)) - (groupPosR G s g - groupPosL G s g) = 0 from by
    simp only [List.length_nil]; omega]
  rw [if_neg (show ¬((0 : ℤ) < 0) from by omega), if_neg (show ¬((0 : ℤ) < 0) from by omega)]
  rw [offsetSplits_zero]
  rfl


/-! ### The claims -/

/-- Claim C1: for every sequence of valid mutating operations
(`setItemArray`, `addItemArray`, `addItem`, `removeGroup`, `removeItem`
with a valid index, `moveItemToGroup`) starting from the empty
container, at every point between operations the split array is
non-decreasing, every split lies in `[0, buffer.length]`, and the `G`
group regions exactly partition `[0, buffer.length)` with no gap or
overlap: region `0` starts at `0`, region `G - 1` ends at
`buffer.length`, adjacent regions abut, and every region has
non-negative length. -/
theorem claim1_partition_invariant (G : ℕ) (hG : 0 < G) (ops : List (Op α))
    (hvalid : validSeq G (emptyState α G) ops = true) (n : ℕ) :
    List.Chain' (· ≤ ·) (execOps G (emptyState α G) (ops.take n)).splits ∧
    (∀ j, j < (execOps G (emptyState α G) (ops.take n)).splits.length →
      0 ≤ (execOps G (emptyState α G) (ops.take n)).splits.getD j 0 ∧
      (execOps G (emptyState α G) (ops.take n)).splits.getD j 0 ≤
        ((execOps G (emptyState α G) (ops.take n)).itemArray.length : ℤ)) ∧
    groupPosL G (execOps G (emptyState α G) (ops.take n)) 0 = 0 ∧
    groupPosR G (execOps G (emptyState α G) (ops.take n)) (G - 1) =
      ((execOps G (emptyState α G) (ops.take n)).itemArray.length : ℤ) ∧
    (∀ g, g + 1 < G → groupPosR G (execOps G (emptyState α G) (ops.take n)) g =
      groupPosL G (execOps G (emptyState α G) (ops.take n)) (g + 1)) ∧
    (∀ g, g < G → groupPosL G (execOps G (emptyState α G) (ops.take n)) g ≤
      groupPosR G (execOps G (emptyState α G) (ops.take n)) g) :=
  invariant_package G _ hG
    (invariant_execOps G hG (ops.take n) (emptyState α G) (invariant_emptyState G)
      (validSeq_take G ops (emptyState α G) n hvalid))

/-- Witness for C1 at `G = 3`, the sample operation sequence, and the
prefix of length 5. -/
theorem claim1_witness :
    (0 < 3 ∧ validSeq 3 (emptyState Char 3) sampleOps = true) ∧
    (List.Chain' (· ≤ ·) (execOps 3 (emptyState Char 3) (sampleOps.take 5)).splits ∧
    (∀ j, j < (execOps 3 (emptyState Char 3) (sampleOps.take 5)).splits.length →
      0 ≤ (execOps 3 (emptyState Char 3) (sampleOps.take 5)).splits.getD j 0 ∧
      (execOps 3 (emptyState Char 3) (sampleOps.take 5)).splits.getD j 0 ≤
        ((execOps 3 (emptyState Char 3) (sampleOps.take 5)).itemArray.length : ℤ)) ∧
    groupPosL 3 (execOps 3 (emptyState Char 3) (sampleOps.take 5)) 0 = 0 ∧
    groupPosR 3 (execOps 3 (emptyState Char 3) (sampleOps.take 5)) (3 - 1) =
      ((execOps 3 (emptyState Char 3) (sampleOps.take 5)).itemArray.length : ℤ) ∧
    (∀ g, g + 1 < 3 → groupPosR 3 (execOps 3 (emptyState Char 3) (sampleOps.take 5)) g =
      groupPosL 3 (execOps 3 (emptyState Char 3) (sampleOps.take 5)) (g + 1)) ∧
    (∀ g, g < 3 → groupPosL 3 (execOps 3 (emptyState Char 3) (sampleOps.take 5)) g ≤
      groupPosR 3 (execOps 3 (emptyState Char 3) (sampleOps.take 5)) g)) :=
  ⟨⟨by decide, by decide⟩, claim1_partition_invariant 3 (by decide) sampleOps (by decide) 5⟩

/-- Claim C2: for every (invariant-respecting) container state, group
index `g < G` and data list, `setItemArray(g, data, n)` followed by
reading group `g`'s region yields exactly the data; the contents and
relative order of every other group's region are unchanged. -/
theorem claim2_setItemArray_round_trip (G : ℕ) (s : MultiGroupArray α) (g : ℕ)
    (data : List α) (hInv : Invariant G s) (hg : g < G) :
    groupRegion G (setItemArray G s g data) g = data ∧
    ∀ g', g' < G → g' ≠ g →
      groupRegion G (setItemArray G s g data) g' = groupRegion G s g' :=
  setItemArray_regions G s g data hInv hg

/-- Witness for C2: overwrite group 1 of `"ABCD"/"EFGH"/"IJKL"` with
`"XY"`. -/
theorem claim2_witness :
    (Invariant 3 scenC ∧ 1 < 3) ∧
    (groupRegion 3 (setItemArray 3 scenC 1 ['X', 'Y']) 1 = ['X', 'Y'] ∧
    ∀ g', g' < 3 → g' ≠ 1 →
      groupRegion 3 (setItemArray 3 scenC 1 ['X', 'Y']) g' = groupRegion 3 scenC g') :=
  ⟨⟨by decide, by decide⟩, claim2_setItemArray_round_trip 3 scenC 1 ['X', 'Y']
    (by decide) (by decide)⟩

/-- Claim C3: for every valid `itemIndex` and every valid `targetGroup`
different from the item's current group, `moveItemToGroup` keeps the
total buffer length unchanged, preserves the moved element's value,
shrinks the source region by exactly one, grows the target region by
exactly one, and preserves the relative order of all other elements
(erasing the moved element from the new buffer gives the same list as
erasing it from the old buffer). -/
theorem claim3_move_conservation (G : ℕ) (s : MultiGroupArray α) (i : ℤ) (target old : ℕ)
    (hInv : Invariant G s) (h0 : 0 ≤ i) (hi : i < (s.itemArray.length : ℤ))
    (ht : target < G) (hgi : getItemGroup G s i 0 = (old : ℤ)) (hne : target ≠ old) :
    (moveItemToGroup G s i target).1.itemArray.length = s.itemArray.length ∧
    ∃ p : ℤ, (moveItemToGroup G s i target).2 = some p ∧
      (moveItemToGroup G s i target).1.itemArray[p.toNat]? = s.itemArray[i.toNat]? ∧
      groupPosR G (moveItemToGroup G s i target).1 old -
          groupPosL G (moveItemToGroup G s i target).1 old =
        groupPosR G s old - groupPosL G s old - 1 ∧
      groupPosR G (moveItemToGroup G s i target).1 target -
          groupPosL G (moveItemToGroup G s i target).1 target =
        groupPosR G s target - groupPosL G s target + 1 ∧
      (moveItemToGroup G s i target).1.itemArray.eraseIdx p.toNat =
        s.itemArray.eraseIdx i.toNat := by
  have hG : 0 < G := by omega
  obtain ⟨old', hgi', hlt', hb1, hb2, _⟩ := getItemGroup_spec G s i hInv h0 hi hG
  have holdeq : old = old' := by
    have hc : (old : ℤ) = (old' : ℤ) := hgi.symm.trans hgi'
    exact_mod_cast hc
  subst holdeq
  rcases lt_or_gt_of_ne hne with hto | hot
  · obtain ⟨p, hp1, hp2, hp3, hp4, hp5, hp6, hp7⟩ :=
      move_spec_left G s i target old hInv h0 hi hlt' hgi hto hb1 hb2
    refine ⟨hp4, p, hp1, hp5, ?_, ?_, hp6⟩
    · rw [groupPosR_eq_boundary G _ old hlt', groupPosL_eq_boundary G _ old hlt',
        groupPosR_eq_boundary G s old hlt', groupPosL_eq_boundary G s old hlt',
        hp7 (old + 1) (by omega), hp7 old (by omega),
        if_neg (show ¬(target + 1 ≤ old + 1 ∧ old + 1 ≤ old) from by omega),
        if_pos (show target + 1 ≤ old ∧ old ≤ old from by omega)]
      omega
    · rw [groupPosR_eq_boundary G _ target (by omega), groupPosL_eq_boundary G _ target (by omega),
        groupPosR_eq_boundary G s target (by omega), groupPosL_eq_boundary G s target (by omega),
        hp7 (target + 1) (by omega), hp7 target (by omega),
        if_pos (show target + 1 ≤ target + 1 ∧ target + 1 ≤ old from by omega),
        if_neg (show ¬(target + 1 ≤ target ∧ target ≤ old) from by omega)]
      omega
  · obtain ⟨p, hp1, hp2, hp3, hp4, hp5, hp6, hp7⟩ :=
      move_spec_right G s i target old hInv h0 hi ht hgi hot hb1 hb2
    refine ⟨hp4, p, hp1, hp5, ?_, ?_, hp6⟩
    · rw [groupPosR_eq_boundary G _ old (by omega), groupPosL_eq_boundary G _ old (by omega),
        groupPosR_eq_boundary G s old (by omega), groupPosL_eq_boundary G s old (by omega),
        hp7 (old + 1) (by omega), hp7 old (by omega),
        if_pos (show old + 1 ≤ old + 1 ∧ old + 1 ≤ target from by omega),
        if_neg (show ¬(old + 1 ≤ old ∧ old ≤ target) from by omega)]
      omega
    · rw [groupPosR_eq_boundary G _ target ht, groupPosL_eq_boundary G _ target ht,
        groupPosR_eq_boundary G s target ht, groupPosL_eq_boundary G s target ht,
        hp7 (target + 1) (by omega), hp7 target (by omega),
        if_neg (show ¬(old + 1 ≤ target + 1 ∧ target + 1 ≤ target) from by omega),
        if_pos (show old + 1 ≤ target ∧ target ≤ target from by omega)]
      omega

/-- Witness for C3: move item 0 (`'A'`) of `"ABCD"/"EFGH"/"IJKL"` to
group 2. -/
theorem claim3_witness :
    (Invariant 3 scenC ∧ (0 : ℤ) ≤ 0 ∧ (0 : ℤ) < (scenC.itemArray.length : ℤ) ∧
      2 < 3 ∧ getItemGroup 3 scenC 0 0 = ((0 : ℕ) : ℤ) ∧ (2 : ℕ) ≠ 0) ∧
    ((moveItemToGroup 3 scenC 0 2).1.itemArray.length = scenC.itemArray.length ∧
    ∃ p : ℤ, (moveItemToGroup 3 scenC 0 2).2 = some p ∧
      (moveItemToGroup 3 scenC 0 2).1.itemArray[p.toNat]? = scenC.itemArray[(0 : ℤ).toNat]? ∧
      groupPosR 3 (moveItemToGroup 3 scenC 0 2).1 0 -
          groupPosL 3 (moveItemToGroup 3 scenC 0 2).1 0 =
        groupPosR 3 scenC 0 - groupPosL 3 scenC 0 - 1 ∧
      groupPosR 3 (moveItemToGroup 3 scenC 0 2).1 2 -
          groupPosL 3 (moveItemToGroup 3 scenC 0 2).1 2 =
        groupPosR 3 scenC 2 - groupPosL 3 scenC 2 + 1 ∧
      (moveItemToGroup 3 scenC 0 2).1.itemArray.eraseIdx p.toNat =
        scenC.itemArray.eraseIdx (0 : ℤ).toNat) :=
  ⟨⟨by decide, by decide, by decide, by decide, by decide, by decide⟩,
    claim3_move_conservation 3 scenC 0 2 0 (by decide) (by decide) (by decide) (by decide)
      (by decide) (by decide)⟩


/-- Counterexample to claim C4 as stated: on `"ABCD"/"EFGH"/"IJKL"`,
`getItemGroup(-1, 0)` returns `0`, not the `-1` "not found" sentinel,
although `-1` is outside `[0, buffer.length)`. -/
theorem claim4_counterexample :
    getItemGroup 3 scenC (-1) 0 = 0 ∧ ((0 : ℤ) ≠ -1) := by decide

/-- Claim C4 (amended): for every `itemIndex ≥ buffer.length` and every
`searchFromGroup ≤ G`, `getItemGroup` returns the `-1` sentinel; for
every negative `itemIndex` and `searchFromGroup < G` it instead returns
`searchFromGroup` itself (the first group scanned, whose right bound
exceeds the negative index); and for every in-range `itemIndex` with
`searchFromGroup = 0` it returns the first group index whose region's
right bound exceeds `itemIndex`. -/
theorem claim4_group_lookup (G : ℕ) (s : MultiGroupArray α) (hInv : Invariant G s) :
    (∀ i : ℤ, (s.itemArray.length : ℤ) ≤ i → ∀ f : ℕ, f ≤ G →
      getItemGroup G s i f = -1) ∧
    (∀ i : ℤ, i < 0 → ∀ f : ℕ, f < G → getItemGroup G s i f = (f : ℤ)) ∧
    (∀ i : ℤ, 0 ≤ i → i < (s.itemArray.length : ℤ) → 0 < G →
      ∃ g : ℕ, getItemGroup G s i 0 = (g : ℤ) ∧ g < G ∧ i < groupPosR G s g ∧
        ∀ g', g' < g → groupPosR G s g' ≤ i) := by
  refine ⟨?_, ?_, ?_⟩
  · intro i hi f hf
    exact getItemGroup_out G s i hInv hi f hf
  · intro i hi f hf
    exact getItemGroup_of_neg G s i hInv hi f hf
  · intro i h0 hi hG
    obtain ⟨g, h1, h2, h3, h4, h5⟩ := getItemGroup_spec G s i hInv h0 hi hG
    refine ⟨g, h1, h2, ?_, ?_⟩
    · rw [groupPosR_eq_boundary G s g h2]; exact h4
    · intro g' hg'
      rw [groupPosR_eq_boundary G s g' (by omega)]
      exact h5 g' hg'

/-- Witness for C4 (amended) on `"ABCD"/"EFGH"/"IJKL"`. -/
theorem claim4_witness :
    Invariant 3 scenC ∧
    ((∀ i : ℤ, (scenC.itemArray.length : ℤ) ≤ i → ∀ f : ℕ, f ≤ 3 →
      getItemGroup 3 scenC i f = -1) ∧
    (∀ i : ℤ, i < 0 → ∀ f : ℕ, f < 3 → getItemGroup 3 scenC i f = (f : ℤ)) ∧
    (∀ i : ℤ, 0 ≤ i → i < (scenC.itemArray.length : ℤ) → 0 < 3 →
      ∃ g : ℕ, getItemGroup 3 scenC i 0 = (g : ℤ) ∧ g < 3 ∧ i < groupPosR 3 scenC g ∧
        ∀ g', g' < g → groupPosR 3 scenC g' ≤ i)) :=
  ⟨by decide, claim4_group_lookup 3 scenC (by decide)⟩

/-- Counterexample to claim C5 as stated: moving item 0 of
`"ABCD"/"EFGH"/"IJKL"` rightward to group 2 returns position 7, which
is the first slot of the resulting region `[7, 12)` of group 2 — not
its last slot 11, as the claim asserts for rightward moves. -/
theorem claim5_counterexample :
    (moveItemToGroup 3 scenC 0 2).2 = some 7 ∧
    groupPosL 3 (moveItemToGroup 3 scenC 0 2).1 2 = 7 ∧
    groupPosR 3 (moveItemToGroup 3 scenC 0 2).1 2 = 12 ∧
    ¬ (7 : ℤ) = groupPosR 3 (moveItemToGroup 3 scenC 0 2).1 2 - 1 := by decide

/-- Claim C5 (amended): for a valid rightward move
(`targetGroup > sourceGroup`) the moved element lands at the FIRST
position of the target's resulting region, and for a valid leftward
move at the LAST position; the returned pointer designates that slot,
which holds the moved element's value. -/
theorem claim5_move_lands_near_edge (G : ℕ) (s : MultiGroupArray α) (i : ℤ)
    (target old : ℕ) (hInv : Invariant G s) (h0 : 0 ≤ i)
    (hi : i < (s.itemArray.length : ℤ)) (ht : target < G)
    (hgi : getItemGroup G s i 0 = (old : ℤ)) :
    (old < target → ∃ p : ℤ, (moveItemToGroup G s i target).2 = some p ∧
      p = groupPosL G (moveItemToGroup G s i target).1 target ∧
      (moveItemToGroup G s i target).1.itemArray[p.toNat]? = s.itemArray[i.toNat]?) ∧
    (target < old → ∃ p : ℤ, (moveItemToGroup G s i target).2 = some p ∧
      p = groupPosR G (moveItemToGroup G s i target).1 target - 1 ∧
      (moveItemToGroup G s i target).1.itemArray[p.toNat]? = s.itemArray[i.toNat]?) := by
  have hG : 0 < G := by omega
  obtain ⟨old', hgi', hlt', hb1, hb2, _⟩ := getItemGroup_spec G s i hInv h0 hi hG
  have holdeq : old = old' := by
    have hc : (old : ℤ) = (old' : ℤ) := hgi.symm.trans hgi'
    exact_mod_cast hc
  subst holdeq
  constructor
  · intro hot
    obtain ⟨p, hp1, hp2, hp3, hp4, hp5, hp6, hp7⟩ :=
      move_spec_right G s i target old hInv h0 hi ht hgi hot hb1 hb2
    exact ⟨p, hp1, hp2, hp5⟩
  · intro hto
    obtain ⟨p, hp1, hp2, hp3, hp4, hp5, hp6, hp7⟩ :=
      move_spec_left G s i target old hInv h0 hi hlt' hgi hto hb1 hb2
    exact ⟨p, hp1, hp2, hp5⟩

/-- Witness for C5 (amended): item 4 (`'E'`, group 1) of
`"ABCD"/"EFGH"/"IJKL"` can be moved rightward to group 2 or leftward to
group 0. -/
theorem claim5_witness :
    (Invariant 3 scenC ∧ (0 : ℤ) ≤ 4 ∧ (4 : ℤ) < (scenC.itemArray.length : ℤ) ∧
      2 < 3 ∧ getItemGroup 3 scenC 4 0 = ((1 : ℕ) : ℤ)) ∧
    ((1 < 2 → ∃ p : ℤ, (moveItemToGroup 3 scenC 4 2).2 = some p ∧
      p = groupPosL 3 (moveItemToGroup 3 scenC 4 2).1 2 ∧
      (moveItemToGroup 3 scenC 4 2).1.itemArray[p.toNat]? =
        scenC.itemArray[(4 : ℤ).toNat]?) ∧
    (2 < 1 → ∃ p : ℤ, (moveItemToGroup 3 scenC 4 2).2 = some p ∧
      p = groupPosR 3 (moveItemToGroup 3 scenC 4 2).1 2 - 1 ∧
      (moveItemToGroup 3 scenC 4 2).1.itemArray[p.toNat]? =
        scenC.itemArray[(4 : ℤ).toNat]?)) :=
  ⟨⟨by decide, by decide, by decide, by decide, by decide⟩,
    claim5_move_lands_near_edge 3 scenC 4 2 1 (by decide) (by decide) (by decide)
      (by decide) (by decide)⟩

/-- Claim C6, evaluated at the failing input: `removeItem(-1)` on
`"ABCD"/"EFGH"/"IJKL"` is not a state-preserving failure — the
well-defined split-adjustment phase that precedes the (undefined)
`erase` completes and decrements every split from `[4, 8]` to
`[3, 7]`. -/
theorem claim6_removeItem_negative_mutates :
    removeItem 3 scenC (-1) =
      some ⟨['A', 'B', 'C', 'D', 'E', 'F', 'G', 'H', 'I', 'J', 'K', 'L'], [3, 7]⟩ ∧
    scenC.splits = [4, 8] ∧ ¬ ([3, 7] : List ℤ) = [4, 8] := by decide

/-- Counterexample to claim C7 as stated: the left-to-right predicate
search for `'H'` in `"ABCD"/"EFGH"/"IJKL"` returns index 7
(`'H'` is the 8th character), not 6. -/
theorem claim7_counterexample :
    getItemIndexByPredicate scenC (fun c => c = 'H') = 7 ∧ ¬ (7 : ℤ) = 6 := by decide

/-- Claim C7 (amended, with the search result corrected from 6 to 7,
the index the header's own walkthrough documents): search for `'H'`
returns 7; `getItemGroup(7, 0)` returns 1; `removeItem(7)` yields
`"ABCD"/"EFG"/"IJKL"`; a subsequent search for `'H'` returns the
not-found sentinel `-1`; `removeGroup(1)` then yields
`"ABCD"/""/"IJKL"` with group 1's region length 0. -/
theorem claim7_scenario :
    groupRegion 3 scenC 0 = ['A', 'B', 'C', 'D'] ∧
    groupRegion 3 scenC 1 = ['E', 'F', 'G', 'H'] ∧
    groupRegion 3 scenC 2 = ['I', 'J', 'K', 'L'] ∧
    getItemIndexByPredicate scenC (fun c => c = 'H') = 7 ∧
    getItemGroup 3 scenC 7 0 = 1 ∧
    removeItem 3 scenC 7 = some scenC1 ∧
    groupRegion 3 scenC1 0 = ['A', 'B', 'C', 'D'] ∧
    groupRegion 3 scenC1 1 = ['E', 'F', 'G'] ∧
    groupRegion 3 scenC1 2 = ['I', 'J', 'K', 'L'] ∧
    getItemIndexByPredicate scenC1 (fun c => c = 'H') = -1 ∧
    groupRegion 3 scenC2 0 = ['A', 'B', 'C', 'D'] ∧
    groupRegion 3 scenC2 1 = [] ∧
    groupRegion 3 scenC2 2 = ['I', 'J', 'K', 'L'] ∧
    groupPosR 3 scenC2 1 - groupPosL 3 scenC2 1 = 0 := by decide

/-- Claim C8: `removeGroup(g)` on a group whose region is already empty
is a no-op — the buffer contents, buffer length and every split
boundary are unchanged (the resulting state is equal to the input
state). -/
theorem claim8_removeGroup_empty_noop (G : ℕ) (s : MultiGroupArray α) (g : ℕ)
    (hg : g < G) (hEmpty : groupPosR G s g - groupPosL G s g = 0) :
    removeGroup G s g = s :=
  removeGroup_empty_noop G s g hEmpty

/-- Witness for C8: group 1 of `"ABCD"/""/"IJKL"` is empty and
`removeGroup(1)` leaves the state unchanged. -/
theorem claim8_witness :
    (1 < 3 ∧ groupPosR 3 scenC2 1 - groupPosL 3 scenC2 1 = 0) ∧
    removeGroup 3 scenC2 1 = scenC2 :=
  ⟨⟨by decide, by decide⟩, claim8_removeGroup_empty_noop 3 scenC2 1 (by decide) (by decide)⟩

/-- Claim C10: for every (invariant-respecting) state and valid group
index, `getGroupStartPtr` returns the null pointer exactly when the
group's region is empty; a non-null result designates the first element
of the group's region, which is a readable buffer position. -/
theorem claim10_getGroupStartPtr (G : ℕ) (s : MultiGroupArray α) (g : ℕ)
    (hInv : Invariant G s) (hg : g < G) :
    (getGroupStartPtr G s g = none ↔ groupPosR G s g - groupPosL G s g = 0) ∧
    (∀ p : ℤ, getGroupStartPtr G s g = some p →
      p = groupPosL G s g ∧ 0 ≤ p ∧ p.toNat < s.itemArray.length ∧
      s.itemArray[p.toNat]? = (groupRegion G s g)[0]?) := by
  have hG : 0 < G := by omega
  have hb0 : 0 ≤ boundary G s g := by
    have h := boundary_le G s hInv 0 g (by omega) (by omega); rwa [boundary_zero] at h
  have hbb : boundary G s g ≤ boundary G s (g + 1) := hInv.2 g hg
  have hbl : boundary G s (g + 1) ≤ (s.itemArray.length : ℤ) := by
    have h := boundary_le G s hInv (g + 1) G (by omega) (le_refl G)
    rwa [boundary_last G s hG] at h
  have hLb := groupPosL_eq_boundary G s g hg
  have hRb := groupPosR_eq_boundary G s g hg
  unfold getGroupStartPtr
  by_cases hsz : groupPosR G s g - groupPosL G s g = 0
  · rw [if_pos hsz]
    refine ⟨⟨fun _ => hsz, fun _ => rfl⟩, ?_⟩
    intro p hp
    exact absurd hp (by simp)
  · rw [if_neg hsz]
    refine ⟨⟨fun h => absurd h (by simp), fun h => absurd h hsz⟩, ?_⟩
    intro p hp
    have hpL : groupPosL G s g = p := Option.some.inj hp
    have hlt : groupPosL G s g < groupPosR G s g := by
      rw [hLb, hRb] at hsz ⊢
      omega
    refine ⟨hpL.symm, ?_, ?_, ?_⟩
    · rw [← hpL, hLb]; exact hb0
    · rw [← hpL]
      rw [hLb, hRb] at hlt
      omega
    · rw [groupRegion_getElem?, if_pos (by rw [hLb, hRb] at hlt hsz ⊢; omega)]
      rw [← hpL, Nat.add_zero]

/-- Witness for C10 on `"ABCD"/"EFGH"/"IJKL"`, group 1. -/
theorem claim10_witness :
    (Invariant 3 scenC ∧ 1 < 3) ∧
    ((getGroupStartPtr 3 scenC 1 = none ↔ groupPosR 3 scenC 1 - groupPosL 3 scenC 1 = 0) ∧
    (∀ p : ℤ, getGroupStartPtr 3 scenC 1 = some p →
      p = groupPosL 3 scenC 1 ∧ 0 ≤ p ∧ p.toNat < scenC.itemArray.length ∧
      scenC.itemArray[p.toNat]? = (groupRegion 3 scenC 1)[0]?)) :=
  ⟨⟨by decide, by decide⟩, claim10_getGroupStartPtr 3 scenC 1 (by decide) (by decide)⟩

end MultiGroupArray
